import Mathlib

/-!
Verification development for the real-time fan-out core of the `ambercore`
repository: the `SSEService` (topic-based client registry, heartbeat,
filtered/transformed broadcast, `src/libs/messaging/sse/sse.service.ts`),
the `WebSocketService` heartbeat (two-phase `isAlive` sweep,
`src/libs/messaging/websocket`), and the `PusherGateway` /
`MessagingService` presence path (`src/core/messaging`).

JavaScript `Map` objects are embedded as insertion-ordered association
lists, `Set` objects as duplicate-free lists in insertion order, and ISO
timestamp strings (`new Date().toISOString()`) as opaque `String`
parameters supplied to each operation.  Transport handles (`Response`)
are embedded as a record saying whether `write` throws; the byte
sequences actually written are collected in explicit write traces.
-/

/-- Membership-respecting model of `Map.get`: value of the first entry whose
key matches, as JavaScript map lookup (keys are unique in a real `Map`). -/
def mapGet {α : Type} : List (String × α) → String → Option α
  | [], _ => none
  | e :: t, k => if e.1 = k then some e.2 else mapGet t k

/-- Model of `Map.set`: replace the value at an existing key in place,
otherwise append the new entry (JavaScript insertion order). -/
def mapSet {α : Type} : List (String × α) → String → α → List (String × α)
  | [], k, v => [(k, v)]
  | e :: t, k, v => if e.1 = k then (k, v) :: t else e :: mapSet t k v

/-- Model of `Map.delete`. -/
def mapDelete {α : Type} (m : List (String × α)) (k : String) :
    List (String × α) :=
  m.filter (fun e => ¬ e.1 = k)

/-- Model of `Set.add` (no duplicates, insertion order preserved). -/
def setAdd (s : List String) (x : String) : List String :=
  if x ∈ s then s else s ++ [x]

/-- Model of `Set.delete`. -/
def setRemove (s : List String) (x : String) : List String :=
  s.filter (fun y => ¬ y = x)

/-- JavaScript truthiness of an optional string (`undefined` and `""` are
falsy). -/
def strTruthy : Option String → Option String
  | some s => if s = "" then none else some s
  | none => none

/-- JavaScript truthiness of an optional number (`undefined` and `0` are
falsy). -/
def natTruthy : Option Nat → Option Nat
  | some n => if n = 0 then none else some n
  | none => none

/-- JavaScript `String.prototype.startsWith`, embedded on the character
list (`String.startsWith` of the standard library is extensionally the
same function). -/
def strStartsWith (s p : String) : Bool :=
  p.data.isPrefixOf s.data

namespace SSEService

/-- Model of the Express `Response` transport handle: only the observable
behaviour the service depends on, namely whether `response.write` throws. -/
structure SSEResponse where
  failing : Bool
  deriving Repr, DecidableEq

/-- Embedding of `SSEClient` (`sse.types.ts`); the `metadata` map, always
created empty and never read by the service, is omitted. -/
structure SSEClient where
  id : String
  response : SSEResponse
  topics : List String
  connectedAt : String
  lastEventId : Option String
  lastEventAt : String
  lastHeartbeatAt : String
  deriving Repr, DecidableEq

/-- Embedding of `SSEEvent` (`sse.types.ts`).  `data` is the serialized
payload: the service uses `event.data` directly when it is a string and
`JSON.stringify(event.data)` otherwise, so the model works with the
already-serialized string. -/
structure SSEEvent where
  id : Option String := none
  event : Option String := none
  data : String
  retry : Option Nat := none
  comment : Option String := none
  topic : Option String := none
  timestamp : Option String := none

/-- Embedding of `SSESubscription` (`sse.types.ts`); the unused `metadata`
map is omitted. -/
structure SSESubscription where
  topic : String
  clientId : String
  filter : Option (SSEEvent → Bool) := none
  transform : Option (SSEEvent → SSEEvent) := none
  createdAt : String
  updatedAt : String

/-- Embedding of `SSEConfig` with the constructor's defaults
(`sse.service.ts`, lines 13-25).  `maxEventSize = 0` models a falsy
configured size (the code guards the size check with
`this.config.maxEventSize &&`). -/
structure SSEConfig where
  enabled : Bool := true
  heartbeatInterval : Nat := 30000
  retryInterval : Nat := 3000
  maxClients : Nat := 1000
  maxEventSize : Nat := 1048576
  compression : Bool := false
  retryAfter : Nat := 5000
  deriving Repr, DecidableEq

/-- Service state: the `clients` and `subscriptions` maps and the
`activeTopics` set of `SSEService`.  `nextId` drives client-id generation
(the source generates `client_${Date.now()}_${random}`, modelled as an
injective function of a fresh counter). -/
structure SSEState where
  clients : List (String × SSEClient) := []
  subscriptions : List (String × SSESubscription) := []
  activeTopics : List String := []
  nextId : Nat := 0

/-- Initial state of a freshly constructed service. -/
def initState : SSEState := {}

/-- Fresh client identifier for counter value `n` (stands for the
source's `client_${Date.now()}_${random}`, which is fresh with
overwhelming probability; the model makes freshness exact). -/
def mkClientId (n : Nat) : String :=
  "client_" ++ String.mk (List.replicate n 'x')

/-- Serialized SSE frame built by `sendEvent` (lines 302-326): optional
`id:`, `event:`, `retry:`, comment lines, then the `data:` line.  The
`if (event.id)`-style guards are JavaScript truthiness checks. -/
def buildMessage (event : SSEEvent) : String :=
  (match strTruthy event.id with
    | some i => "id: " ++ i ++ "\n"
    | none => "") ++
  (match strTruthy event.event with
    | some e => "event: " ++ e ++ "\n"
    | none => "") ++
  (match natTruthy event.retry with
    | some r => "retry: " ++ toString r ++ "\n"
    | none => "") ++
  (match strTruthy event.comment with
    | some c => ": " ++ c ++ "\n"
    | none => "") ++
  "data: " ++ event.data ++ "\n\n"

/-- Embedding of the private `sendEvent` (lines 296-334).  Returns the
updated client together with the list of frames written to its transport
(empty when the service is disabled), or `Except.error` when the method
throws: either the size-limit error raised before the write, or the
transport `write` failure.  `client.lastEventId` is set while the frame is
being assembled; the mutation is unobservable on the error path because
every caller that catches the error immediately evicts the client. -/
def sendEvent (cfg : SSEConfig) (client : SSEClient) (event : SSEEvent)
    (now : String) : Except Unit (SSEClient × List String) :=
  if cfg.enabled = false then
    .ok (client, [])
  else
    let c1 :=
      match strTruthy event.id with
      | some i => { client with lastEventId := some i }
      | none => client
    if cfg.maxEventSize ≠ 0 ∧ event.data.utf8ByteSize > cfg.maxEventSize then
      .error ()
    else if client.response.failing then
      .error ()
    else
      .ok ({ c1 with lastHeartbeatAt := now }, [buildMessage event])

/-- Result of `addClient` (lines 94-141): the post-state, the returned
client id (`Except.error` when the method throws — service disabled,
capacity reached, or the initial `retry:` write failing after the client
was already registered), and the frames written to the new transport. -/
structure AddClientResult where
  state : SSEState
  ret : Except Unit String
  writes : List String

/-- Embedding of `addClient` (lines 94-141): rejects when disabled or when
`clients.size >= maxClients`; otherwise registers the client (deduplicated
initial topic set, `connectedAt`/`lastEventAt`/`lastHeartbeatAt` stamped
`now`), adds the initial topics to `activeTopics`, writes the
`retry:` preamble and returns the generated id.  `writeHead` and the
response headers are transport formatting and are not modelled. -/
def addClient (cfg : SSEConfig) (s : SSEState) (response : SSEResponse)
    (topics : List String) (now : String) : AddClientResult :=
  if cfg.enabled = false then
    ⟨s, .error (), []⟩
  else if cfg.maxClients ≤ s.clients.length then
    ⟨s, .error (), []⟩
  else
    let clientId := mkClientId s.nextId
    let client : SSEClient :=
      { id := clientId
        response := response
        topics := topics.foldl setAdd []
        connectedAt := now
        lastEventId := none
        lastEventAt := now
        lastHeartbeatAt := now }
    let s' : SSEState :=
      { s with
        clients := mapSet s.clients clientId client
        activeTopics := topics.foldl setAdd s.activeTopics
        nextId := s.nextId + 1 }
    if response.failing then
      ⟨s', .error (), []⟩
    else
      ⟨s', .ok clientId, ["retry: " ++ toString cfg.retryInterval ++ "\n\n"]⟩

/-- Embedding of `removeClient` (lines 143-177).  Mirrors the source
exactly, including the slip at line 152: the subscription records of the
client are collected by `clientId`, but each is then deleted under the key
`sub.topic`, whereas `subscribe` stores them under
`` `${clientId}:${topic}` ``.  The `activeTopics` update checks, for each
of the client's topics, whether any other client still holds it — against
the map that still contains the client, excluding it by `c.id`, as the
source does.  Both the normal path and the caught-error path (a throwing
`response.end()` falls into the `catch`, which still deletes the client;
the subscription and topic updates have already run by then) produce the
same state, so the embedding is a single total function and the method
never propagates an error. -/
def removeClient (s : SSEState) (clientId : String) : SSEState :=
  match mapGet s.clients clientId with
  | none => s
  | some client =>
    let clientSubs :=
      (s.subscriptions.map (fun e => e.2)).filter
        (fun sub => sub.clientId = clientId)
    let subs' := clientSubs.foldl (fun m sub => mapDelete m sub.topic)
      s.subscriptions
    let active' := client.topics.foldl
      (fun acc topic =>
        if s.clients.any
            (fun e => ¬ e.2.id = clientId ∧ topic ∈ e.2.topics) then
          acc
        else
          setRemove acc topic)
      s.activeTopics
    { s with
      clients := mapDelete s.clients clientId
      subscriptions := subs'
      activeTopics := active' }

/-- One iteration of the `topics.forEach` body of `subscribe`
(lines 183-195): adds the topic to the client's set and to `activeTopics`,
and stores a fresh subscription record (no filter or transform) under the
key `` `${clientId}:${topic}` ``.  The source mutates the captured
`client` object in place; the model re-reads and writes back the map
entry, which is equivalent. -/
def subscribeTopic (s : SSEState) (clientId : String) (now : String)
    (topic : String) : SSEState :=
  match mapGet s.clients clientId with
  | none => s
  | some c =>
    { s with
      clients := mapSet s.clients clientId
        { c with topics := setAdd c.topics topic }
      activeTopics := setAdd s.activeTopics topic
      subscriptions := mapSet s.subscriptions (clientId ++ ":" ++ topic)
        { topic := topic
          clientId := clientId
          filter := none
          transform := none
          createdAt := now
          updatedAt := now } }

/-- Embedding of `subscribe` (lines 179-201): no-op for an unknown client,
otherwise processes each topic in order. -/
def subscribe (s : SSEState) (clientId : String) (topics : List String)
    (now : String) : SSEState :=
  match mapGet s.clients clientId with
  | none => s
  | some _ => topics.foldl (fun st t => subscribeTopic st clientId now t) s

/-- One iteration of the `topics.forEach` body of `unsubscribe`
(lines 206-216): removes the topic from the client's set, deletes the
subscription record under `` `${clientId}:${topic}` ``, and drops the
topic from `activeTopics` when no other client still holds it (checked by
`c.id`, against the map in which this client's set was already updated). -/
def unsubscribeTopic (s : SSEState) (clientId : String) (topic : String) :
    SSEState :=
  match mapGet s.clients clientId with
  | none => s
  | some c =>
    let clients' := mapSet s.clients clientId
      { c with topics := setRemove c.topics topic }
    let active' :=
      if clients'.any
          (fun e => ¬ e.2.id = clientId ∧ topic ∈ e.2.topics) then
        s.activeTopics
      else
        setRemove s.activeTopics topic
    { s with
      clients := clients'
      subscriptions := mapDelete s.subscriptions (clientId ++ ":" ++ topic)
      activeTopics := active' }

/-- Embedding of `unsubscribe` (lines 203-222). -/
def unsubscribe (s : SSEState) (clientId : String) (topics : List String) :
    SSEState :=
  match mapGet s.clients clientId with
  | none => s
  | some _ => topics.foldl (fun st t => unsubscribeTopic st clientId t) s

/-- Direct mutation of a stored subscription's `filter`
(`subscription.filter = f`), the way filters enter the system in the
service's own test suite (`sse.service.spec.ts`, line 256): the service
API itself never populates the field. -/
def setSubscriptionFilter (s : SSEState) (key : String)
    (f : SSEEvent → Bool) : SSEState :=
  match mapGet s.subscriptions key with
  | none => s
  | some sub =>
    { s with subscriptions := (mapSet s.subscriptions key
        { sub with filter := some f }) }

/-- Direct mutation of a stored subscription's `transform`
(`sse.service.spec.ts`, line 289). -/
def setSubscriptionTransform (s : SSEState) (key : String)
    (g : SSEEvent → SSEEvent) : SSEState :=
  match mapGet s.subscriptions key with
  | none => s
  | some sub =>
    { s with subscriptions := (mapSet s.subscriptions key
        { sub with transform := some g }) }

/-- Subscription record consulted by `broadcast` for a client (line 240):
looked up under `` `${client.id}:${event.topic}` `` when the event has a
truthy topic, `undefined` otherwise. -/
def subFor (s : SSEState) (client : SSEClient) (fe : SSEEvent) :
    Option SSESubscription :=
  match strTruthy fe.topic with
  | some t => mapGet s.subscriptions (client.id ++ ":" ++ t)
  | none => none

/-- Per-recipient event after the optional `transform` (lines 250-252). -/
def xformEvent (sub : Option SSESubscription) (fe : SSEEvent) : SSEEvent :=
  match sub with
  | some sb =>
    match sb.transform with
    | some g => g fe
    | none => fe
  | none => fe

/-- Whether the optional per-subscription `filter` rejects the event
(line 245: `subscription?.filter && !subscription.filter(finalEvent)`). -/
def filterRejects (sub : Option SSESubscription) (fe : SSEEvent) : Bool :=
  match sub with
  | some sb =>
    match sb.filter with
    | some f => ¬ f fe
    | none => false
  | none => false

/-- The `finalEvent` constructed by `broadcast` and `sendToClient`
(lines 230-233, 277-280): the event with its `timestamp` stamped at
delivery-attempt time. -/
def finalizeEvent (event : SSEEvent) (now : String) : SSEEvent :=
  { event with timestamp := some now }

/-- Result of one `broadcast` call: post-state, the `(clientId, frame)`
write trace in delivery order, and the method's local `sentCount` (used
only for the debug log; `broadcast` itself returns `void`). -/
structure BroadcastResult where
  state : SSEState
  writes : List (String × String)
  sentCount : Nat

/-- Body of the `clients.forEach` callback of `broadcast` (lines 236-262)
for the client stored under key `k`: skipped when the client has since
been removed (`Map.forEach` does not visit deleted entries), or when the
event has a truthy topic the client is not subscribed to, or when the
subscription filter rejects the event; otherwise the (possibly
transformed) event is sent, and a `sendEvent` failure is caught and the
client evicted via `removeClient(client.id)`. -/
def broadcastVisit (cfg : SSEConfig) (fe : SSEEvent) (now : String)
    (s : SSEState) (k : String) :
    SSEState × List (String × String) × Nat :=
  match mapGet s.clients k with
  | none => (s, [], 0)
  | some client =>
    let deliver : Bool :=
      match strTruthy fe.topic with
      | none => true
      | some t => t ∈ client.topics
    if deliver then
      let sub := subFor s client fe
      if filterRejects sub fe then
        (s, [], 0)
      else
        match sendEvent cfg client (xformEvent sub fe) now with
        | .ok (c', ws) =>
          ({ s with clients := (mapSet s.clients k
              { c' with lastEventAt := now }) },
            ws.map (fun m => (k, m)), 1)
        | .error _ => (removeClient s client.id, [], 0)
    else
      (s, [], 0)

/-- Iteration of `broadcast` over the snapshot of client keys. -/
def broadcastLoop (cfg : SSEConfig) (fe : SSEEvent) (now : String) :
    List String → SSEState → SSEState × List (String × String) × Nat
  | [], s => (s, [], 0)
  | k :: ks, s =>
    let r := broadcastVisit cfg fe now s k
    let rest := broadcastLoop cfg fe now ks r.1
    (rest.1, r.2.1 ++ rest.2.1, r.2.2 + rest.2.2)

/-- Embedding of `broadcast` (lines 224-267): returns immediately when the
service is disabled, otherwise stamps the event's `timestamp` with `now`
and visits every client.  The recipient test at line 237 reads
`event.topic`, which the spread at line 230 copies unchanged into
`finalEvent`, so the model reads it from the stamped event. -/
def broadcast (cfg : SSEConfig) (s : SSEState) (event : SSEEvent)
    (now : String) : BroadcastResult :=
  if cfg.enabled = false then
    ⟨s, [], 0⟩
  else
    let fe := finalizeEvent event now
    let r := broadcastLoop cfg fe now (s.clients.map (fun e => e.1)) s
    ⟨r.1, r.2.1, r.2.2⟩

/-- Embedding of `sendToClient` (lines 269-294): single-recipient send with
the same catch-and-evict failure handling as `broadcast`, and no
subscription filter or transform. -/
def sendToClient (cfg : SSEConfig) (s : SSEState) (clientId : String)
    (event : SSEEvent) (now : String) :
    SSEState × List (String × String) :=
  if cfg.enabled = false then
    (s, [])
  else
    match mapGet s.clients clientId with
    | none => (s, [])
    | some client =>
      let fe := finalizeEvent event now
      match sendEvent cfg client fe now with
      | .ok (c', ws) =>
        ({ s with clients := (mapSet s.clients clientId
            { c' with lastEventAt := now }) },
          ws.map (fun m => (clientId, m)))
      | .error _ => (removeClient s clientId, [])

/-- The synthetic heartbeat event sent on each sweep (lines 60-65). -/
def heartbeatEvent (now : String) : SSEEvent :=
  { id := some "heartbeat"
    event := some "heartbeat"
    data := now
    timestamp := some now }

/-- Body of the heartbeat `clients.forEach` callback (lines 58-71) for the
client stored under key `k`: sends the heartbeat event and stamps
`lastHeartbeatAt`; a `sendEvent` failure is caught and the client evicted
via `removeClient(client.id)`. -/
def heartbeatVisit (cfg : SSEConfig) (now : String) (s : SSEState)
    (k : String) : SSEState × List (String × String) :=
  match mapGet s.clients k with
  | none => (s, [])
  | some client =>
    match sendEvent cfg client (heartbeatEvent now) now with
    | .ok (c', ws) =>
      ({ s with clients := (mapSet s.clients k
          { c' with lastHeartbeatAt := now }) },
        ws.map (fun m => (k, m)))
    | .error _ => (removeClient s client.id, [])

/-- Iteration of the heartbeat sweep over the snapshot of client keys. -/
def heartbeatLoop (cfg : SSEConfig) (now : String) :
    List String → SSEState → SSEState × List (String × String)
  | [], s => (s, [])
  | k :: ks, s =>
    let r := heartbeatVisit cfg now s k
    let rest := heartbeatLoop cfg now ks r.1
    (rest.1, r.2 ++ rest.2)

/-- Embedding of one firing of the interval callback installed by
`startHeartbeat` (lines 51-73): every registered client is sent a
heartbeat event; a client whose send throws is evicted in the same sweep.
There is no liveness flag and no response from the client is expected or
tracked (SSE is server-to-client only). -/
def heartbeatSweep (cfg : SSEConfig) (s : SSEState) (now : String) :
    SSEState × List (String × String) :=
  heartbeatLoop cfg now (s.clients.map (fun e => e.1)) s

/-- Embedding of `getClients` (lines 340-342). -/
def getClients (s : SSEState) : List SSEClient :=
  s.clients.map (fun e => e.2)

/-- Embedding of `getActiveTopics` (lines 344-346). -/
def getActiveTopics (s : SSEState) : List String :=
  s.activeTopics

/-- Embedding of `getSubscriptions` (lines 348-350). -/
def getSubscriptions (s : SSEState) : List SSESubscription :=
  s.subscriptions.map (fun e => e.2)

/-- Every client entry's stored `id` field equals its map key — true of
every state the service itself constructs. -/
def IdKey (s : SSEState) : Prop :=
  ∀ e ∈ s.clients, e.2.id = e.1

/-- The client map has no duplicate keys — true of every real `Map`. -/
def KeysNodup (s : SSEState) : Prop :=
  (s.clients.map (fun e => e.1)).Nodup

/-- No subscription-map key coincides with the `topic` field of any stored
record.  Keys have the shape `` `${clientId}:${topic}` ``, so this holds
whenever topic names are not themselves of that composite shape; it is the
condition under which the mistaken `subscriptions.delete(sub.topic)` of
`removeClient` (line 152) deletes nothing at all. -/
def SubsSafe (s : SSEState) : Prop :=
  ∀ e ∈ s.subscriptions, ∀ e2 ∈ s.subscriptions, ¬ e.1 = e2.2.topic

/-- The event's serialized payload passes the `maxEventSize` check of
`sendEvent` (line 322), where a falsy configured size disables the
check. -/
def sizeOk (cfg : SSEConfig) (ev : SSEEvent) : Prop :=
  cfg.maxEventSize = 0 ∨ ev.data.utf8ByteSize ≤ cfg.maxEventSize

/-- Client ids issued so far are exactly the `mkClientId` values below the
counter (freshness of generated ids). -/
def Fresh (s : SSEState) : Prop :=
  ∀ e ∈ s.clients, ∃ j, j < s.nextId ∧ e.1 = mkClientId j

/-- A topic is in `activeTopics` exactly when some registered client holds
it (the spec's active-topic-index invariant). -/
def TopicInv (s : SSEState) : Prop :=
  ∀ t, t ∈ s.activeTopics ↔ ∃ e ∈ s.clients, t ∈ e.2.topics

/-- Well-formedness of the service state, true of every state the service
reaches: stored ids match map keys, generated ids are fresh instances of
the id counter, the client map has no duplicate keys, and the
active-topic index matches the clients' topic sets. -/
def Inv (s : SSEState) : Prop :=
  IdKey s ∧ Fresh s ∧ KeysNodup s ∧ TopicInv s

/-- Bidirectional consistency between the subscription map and the client
topic sets: every record's key is `` `${clientId}:${topic}` `` and points
at a registered client holding the topic, and conversely every
client/topic edge has its record. -/
def SubsInv (s : SSEState) : Prop :=
  (∀ e ∈ s.subscriptions,
      e.1 = e.2.clientId ++ ":" ++ e.2.topic ∧
      ∃ c, mapGet s.clients e.2.clientId = some c ∧ e.2.topic ∈ c.topics) ∧
  (∀ e ∈ s.clients, ∀ t ∈ e.2.topics,
      ∃ sub, mapGet s.subscriptions (e.1 ++ ":" ++ t) = some sub ∧
        sub.clientId = e.1 ∧ sub.topic = t)

/-- The completed operations of the service, for reachability statements:
every public mutator, including the eviction-performing send paths and
the heartbeat sweep, plus the test-suite style direct filter/transform
installation. -/
inductive SSEOp where
  | opAddClient (response : SSEResponse) (topics : List String) (now : String)
  | opSubscribe (clientId : String) (topics : List String) (now : String)
  | opUnsubscribe (clientId : String) (topics : List String)
  | opRemoveClient (clientId : String)
  | opSetFilter (key : String) (f : SSEEvent → Bool)
  | opSetTransform (key : String) (g : SSEEvent → SSEEvent)
  | opBroadcast (event : SSEEvent) (now : String)
  | opSendToClient (clientId : String) (event : SSEEvent) (now : String)
  | opHeartbeat (now : String)

/-- State transition of one completed operation. -/
def applyOp (cfg : SSEConfig) (s : SSEState) : SSEOp → SSEState
  | .opAddClient r topics now => (addClient cfg s r topics now).state
  | .opSubscribe cid ts now => subscribe s cid ts now
  | .opUnsubscribe cid ts => unsubscribe s cid ts
  | .opRemoveClient cid => removeClient s cid
  | .opSetFilter key f => setSubscriptionFilter s key f
  | .opSetTransform key g => setSubscriptionTransform s key g
  | .opBroadcast ev now => (broadcast cfg s ev now).state
  | .opSendToClient cid ev now => (sendToClient cfg s cid ev now).1
  | .opHeartbeat now => (heartbeatSweep cfg s now).1

/-- State after a sequence of completed operations on a fresh service. -/
def runOps (cfg : SSEConfig) (ops : List SSEOp) : SSEState :=
  ops.foldl (applyOp cfg) initState

/-- Operations that manage subscriptions purely through
`subscribe`/`unsubscribe`: `addClient` is given no initial topics, and no
client is ever removed (no `removeClient`, and no send path, whose error
handling can evict). -/
def coreOp : SSEOp → Bool
  | .opAddClient _ topics _ => topics.isEmpty
  | .opSubscribe _ _ _ => true
  | .opUnsubscribe _ _ => true
  | .opSetFilter _ _ => true
  | .opSetTransform _ _ => true
  | _ => false

end SSEService

namespace WebSocketService

/-- Embedding of the `WebSocketClient` connection record
(`src/libs/messaging/websocket`, service source reproduced in the
module's README): the socket id and the `isAlive` liveness flag. -/
structure WSClient where
  id : String
  isAlive : Bool
  deriving Repr, DecidableEq

/-- The `clients` map of `WebSocketService`. -/
structure WSState where
  clients : List (String × WSClient) := []
  deriving Repr, DecidableEq

/-- Embedding of the `connection` handler: the socket is registered with
`isAlive = true`. -/
def onConnection (s : WSState) (id : String) : WSState :=
  { clients := mapSet s.clients id { id := id, isAlive := true } }

/-- Embedding of the `pong` listener: `ws.isAlive = true`. -/
def onPong (s : WSState) (id : String) : WSState :=
  match mapGet s.clients id with
  | none => s
  | some c =>
    { clients := mapSet s.clients id { c with isAlive := true } }

/-- Body of the heartbeat `forEach` of `startHeartbeat` for the socket
stored under key `k`: a socket whose `isAlive` flag is false is deleted
from the map and terminated; otherwise its flag is set false and a `ping`
probe is sent (recorded in the returned trace). -/
def wsHeartbeatVisit (s : WSState) (k : String) : WSState × List String :=
  match mapGet s.clients k with
  | none => (s, [])
  | some ws =>
    if ws.isAlive = false then
      ({ clients := mapDelete s.clients ws.id }, [])
    else
      ({ clients := (mapSet s.clients k { ws with isAlive := false }) },
        [ws.id])

/-- Iteration of the heartbeat sweep over the snapshot of socket keys. -/
def wsHeartbeatLoop :
    List String → WSState → WSState × List String
  | [], s => (s, [])
  | k :: ks, s =>
    let r := wsHeartbeatVisit s k
    let rest := wsHeartbeatLoop ks r.1
    (rest.1, r.2 ++ rest.2)

/-- Embedding of one firing of the interval callback installed by
`WebSocketService.startHeartbeat`: the two-phase mark-then-check sweep. -/
def wsHeartbeatSweep (s : WSState) : WSState × List String :=
  wsHeartbeatLoop (s.clients.map (fun e => e.1)) s

/-- Every socket entry's stored `id` equals its map key — true of every
state the service itself constructs (`ws.id` is the registration key). -/
def WSIdKey (s : WSState) : Prop :=
  ∀ e ∈ s.clients, e.2.id = e.1

end WebSocketService

namespace PusherGateway

/-- Observable actions performed by the gateway and the messaging service
during `handleSubscribe`, in program order: channel authentication
(`MessagingService.authenticateChannel`), a socket-local `emit`, a
broadcast published through the Pusher transport
(`MessagingService.sendMessage`), the gateway-local subscription tracking
(`addClientSubscription`), and the socket.io room join (`client.join`). -/
inductive GatewayAction where
  | authenticate (clientId channel : String) (userId : Option String)
  | emitToClient (clientId event channel : String)
  | publishMessage (channel event content : String) (userId : Option String)
  | trackSubscription (clientId channel : String)
  | joinRoom (clientId channel : String)
  deriving Repr, DecidableEq

/-- Embedding of `MessagingService.handleUserJoin`
(`core/messaging/services/messaging.service.ts`, lines 85-93): broadcasts
a synthetic `user_joined` event on the channel via `sendMessage`. -/
def handleUserJoin (channel userId : String) : GatewayAction :=
  .publishMessage channel "user_joined"
    ("User " ++ userId ++ " joined the channel") (some userId)

/-- The gateway's `connectedClients` map (client id → set of channels). -/
structure GatewayState where
  connectedClients : List (String × List String) := []

/-- Embedding of `addClientSubscription` (gateway source, lines 117-122). -/
def addClientSubscription (s : GatewayState) (clientId channel : String) :
    GatewayState :=
  match mapGet s.connectedClients clientId with
  | none =>
    { connectedClients :=
        mapSet s.connectedClients clientId (setAdd [] channel) }
  | some channels =>
    { connectedClients :=
        mapSet s.connectedClients clientId (setAdd channels channel) }

/-- Embedding of the successful path of `PusherGateway.handleSubscribe`
(gateway source, lines 40-76), returning the post-state and the action
trace in program order.  For a presence channel with a truthy `userId`:
authenticate, emit `subscription_succeeded`, broadcast the synthetic
join via `handleUserJoin`, then track the subscription and join the
socket.io room. -/
def handleSubscribe (s : GatewayState) (clientId channel : String)
    (userId : Option String) : GatewayState × List GatewayAction :=
  match strTruthy userId with
  | some u =>
    if strStartsWith channel "presence-" then
      (addClientSubscription s clientId channel,
        [.authenticate clientId channel (some u),
          .emitToClient clientId "subscription_succeeded" channel,
          handleUserJoin channel u,
          .trackSubscription clientId channel,
          .joinRoom clientId channel])
    else if strStartsWith channel "private-" then
      (addClientSubscription s clientId channel,
        [.authenticate clientId channel none,
          .emitToClient clientId "subscription_succeeded" channel,
          .trackSubscription clientId channel,
          .joinRoom clientId channel])
    else
      (addClientSubscription s clientId channel,
        [.emitToClient clientId "subscription_succeeded" channel,
          .trackSubscription clientId channel,
          .joinRoom clientId channel])
  | none =>
    if strStartsWith channel "private-" then
      (addClientSubscription s clientId channel,
        [.authenticate clientId channel none,
          .emitToClient clientId "subscription_succeeded" channel,
          .trackSubscription clientId channel,
          .joinRoom clientId channel])
    else
      (addClientSubscription s clientId channel,
        [.emitToClient clientId "subscription_succeeded" channel,
          .trackSubscription clientId channel,
          .joinRoom clientId channel])

end PusherGateway

namespace Scenarios

open SSEService

/-- Test configuration: enabled service, capacity 2, 10-byte event limit
(mirroring the small limits of `sse.service.spec.ts`). -/
def cfgS : SSEConfig := { maxEventSize := 10, maxClients := 2 }

/-- Identifier handed out by the first `addClient` call. -/
def idA : String := mkClientId 0

/-- Identifier handed out by the second `addClient` call. -/
def idB : String := mkClientId 1

/-- One client with a healthy transport, no initial topics. -/
def regOne : SSEState := (addClient cfgS initState ⟨false⟩ [] "t0").state

/-- `regOne` after `subscribe(idA, ["news"])`. -/
def subbed : SSEState := subscribe regOne idA ["news"] "t1"

/-- `subbed` with the test-suite style filter `priority == "high"`
installed on the `idA`/`news` subscription record (the model's event
`data` is the serialized payload, so the filter compares it to `"high"`). -/
def withFilter : SSEState :=
  setSubscriptionFilter subbed (idA ++ ":news") (fun e => e.data = "high")

/-- One client registered with initial topics `["news"]` passed directly
to `addClient`. -/
def initTopics : SSEState :=
  (addClient cfgS initState ⟨false⟩ ["news"] "t0").state

/-- Client A with a broken transport and client B with a healthy one, both
subscribed to `"room"`. -/
def pairSub : SSEState :=
  subscribe
    (subscribe
      ((addClient cfgS (addClient cfgS initState ⟨true⟩ [] "t0").state
        ⟨false⟩ [] "t0").state)
      idA ["room"] "t1")
    idB ["room"] "t1"

/-- Same two clients subscribed to `"room"`, both transports healthy. -/
def pairOk : SSEState :=
  subscribe
    (subscribe
      ((addClient cfgS (addClient cfgS initState ⟨false⟩ [] "t0").state
        ⟨false⟩ [] "t0").state)
      idA ["room"] "t1")
    idB ["room"] "t1"

/-- A topic-scoped event small enough to pass the 10-byte limit. -/
def evRoom : SSEEvent := { data := "hi", topic := some "room" }

/-- A `"news"` event whose serialized payload (12 bytes) exceeds the
10-byte limit of `cfgS`. -/
def evBig : SSEEvent := { data := "0123456789ab", topic := some "news" }

/-- One websocket client, freshly connected (`isAlive = true`). -/
def wsOne : WebSocketService.WSState :=
  WebSocketService.onConnection {} "sock1"

/-- A single healthy client subscribed to `"room"`. -/
def singleRoom : SSEState := subscribe regOne idA ["room"] "t1"

/-- A low-priority `"news"` event (the filter scenario's first publish). -/
def evLow : SSEEvent := { data := "low", topic := some "news" }

/-- A high-priority `"news"` event (the filter scenario's second
publish). -/
def evHigh : SSEEvent := { data := "high", topic := some "news" }

/-- An event with no topic: a global broadcast. -/
def evGlobal : SSEEvent := { data := "all" }

/-- The client record stored for `idA` in `pairSub` (broken transport,
subscribed to `"room"`). -/
def clientAFail : SSEClient :=
  { id := idA
    response := ⟨true⟩
    topics := ["room"]
    connectedAt := "t0"
    lastEventId := none
    lastEventAt := "t0"
    lastHeartbeatAt := "t0" }

/-- The client record stored for `idB` in `pairSub` (healthy transport,
subscribed to `"room"`). -/
def clientB : SSEClient :=
  { id := idB
    response := ⟨false⟩
    topics := ["room"]
    connectedAt := "t0"
    lastEventId := none
    lastEventAt := "t0"
    lastHeartbeatAt := "t0" }

/-- The client record stored for `idA` in `subbed` and `withFilter`. -/
def clientA : SSEClient :=
  { id := idA
    response := ⟨false⟩
    topics := ["news"]
    connectedAt := "t0"
    lastEventId := none
    lastEventAt := "t0"
    lastHeartbeatAt := "t0" }

/-- An operation sequence that manages subscriptions purely through
`subscribe`/`unsubscribe`: register a client, subscribe it to two topics,
install a filter on one record, drop one topic again. -/
def c2ops : List SSEOp :=
  [ .opAddClient ⟨false⟩ [] "t0",
    .opSubscribe (mkClientId 0) ["news", "sport"] "t1",
    .opSetFilter (mkClientId 0 ++ ":news") (fun e => e.data = "hi"),
    .opUnsubscribe (mkClientId 0) ["sport"] ]

end Scenarios

section MapLemmas

variable {α : Type}

@[simp]
theorem mapGet_nil (k : String) : mapGet ([] : List (String × α)) k = none :=
  rfl

theorem mapGet_cons (e : String × α) (t : List (String × α)) (k : String) :
    mapGet (e :: t) k = if e.1 = k then some e.2 else mapGet t k :=
  rfl

@[simp]
theorem mapGet_mapSet (m : List (String × α)) (k k' : String) (v : α) :
    mapGet (mapSet m k v) k' = if k' = k then some v else mapGet m k' := by
  induction m with
  | nil =>
    by_cases h : k' = k
    · subst h; simp [mapSet, mapGet]
    · have h2 : ¬ k = k' := fun hk => h hk.symm
      simp [mapSet, mapGet, h, h2]
  | cons e t ih =>
    by_cases he : e.1 = k
    · subst he
      by_cases h : k' = e.1
      · subst h; simp [mapSet, mapGet]
      · have h2 : ¬ e.1 = k' := fun hk => h hk.symm
        simp [mapSet, mapGet, h, h2]
    · by_cases h : e.1 = k'
      · have h3 : ¬ k' = k := fun hk => he (hk ▸ h)
        simp [mapSet, mapGet, he, h, h3]
      · simp [mapSet, mapGet, he, h, ih]

@[simp]
theorem mapGet_mapDelete (m : List (String × α)) (k k' : String) :
    mapGet (mapDelete m k) k' = if k' = k then none else mapGet m k' := by
  induction m with
  | nil => simp [mapDelete]
  | cons e t ih =>
    by_cases he : e.1 = k
    · have : ¬ (k' = k) → ¬ (e.1 = k') := by
        intro h hk; exact h (hk.symm.trans he)
      by_cases h : k' = k <;>
        simp_all [mapDelete, mapGet, List.filter_cons, he]
    · by_cases h : e.1 = k'
      · have : ¬ k' = k := fun hk => he (h.trans hk)
        simp [mapDelete, mapGet, List.filter_cons, he, h, this]
      · simp_all [mapDelete, mapGet, List.filter_cons, he]

theorem mem_mapDelete {m : List (String × α)} {k : String} {e : String × α} :
    e ∈ mapDelete m k ↔ e ∈ m ∧ ¬ e.1 = k := by
  simp [mapDelete, List.mem_filter]

theorem mem_mapSet {m : List (String × α)} {k : String} {v : α}
    {e : String × α} (h : e ∈ mapSet m k v) : e = (k, v) ∨ e ∈ m := by
  induction m with
  | nil => simpa [mapSet] using h
  | cons hd t ih =>
    by_cases hh : hd.1 = k
    · rw [mapSet, if_pos hh] at h
      rcases List.mem_cons.mp h with h | h
      · exact Or.inl h
      · exact Or.inr (List.mem_cons_of_mem _ h)
    · rw [mapSet, if_neg hh] at h
      rcases List.mem_cons.mp h with h | h
      · exact Or.inr (h ▸ List.mem_cons_self _ _)
      · rcases ih h with h | h
        · exact Or.inl h
        · exact Or.inr (List.mem_cons_of_mem _ h)

theorem mem_mapSet_of_ne {m : List (String × α)} {k : String} {v : α}
    {e : String × α} (he : e ∈ m) (hne : ¬ e.1 = k) :
    e ∈ mapSet m k v := by
  induction m with
  | nil => cases he
  | cons hd t ih =>
    by_cases hh : hd.1 = k
    · rw [mapSet, if_pos hh]
      rcases List.mem_cons.mp he with h | h
      · exact absurd (h ▸ hh) hne
      · exact List.mem_cons_of_mem _ h
    · rw [mapSet, if_neg hh]
      rcases List.mem_cons.mp he with h | h
      · exact h ▸ List.mem_cons_self _ _
      · exact List.mem_cons_of_mem _ (ih h)

theorem keys_mapSet_of_get_some {m : List (String × α)} {k : String}
    {v w : α} (h : mapGet m k = some w) :
    (mapSet m k v).map (fun e => e.1) = m.map (fun e => e.1) := by
  induction m with
  | nil => simp [mapGet] at h
  | cons e t ih =>
    by_cases hh : e.1 = k
    · simp [mapSet, hh]
    · rw [mapGet_cons, if_neg hh] at h
      simp [mapSet, hh, ih h]

theorem keys_mapSet_of_get_none {m : List (String × α)} {k : String}
    {v : α} (h : mapGet m k = none) :
    (mapSet m k v).map (fun e => e.1) = m.map (fun e => e.1) ++ [k] := by
  induction m with
  | nil => simp [mapSet]
  | cons e t ih =>
    by_cases hh : e.1 = k
    · rw [mapGet_cons, if_pos hh] at h
      cases h
    · rw [mapGet_cons, if_neg hh] at h
      simp [mapSet, hh, ih h]

theorem keys_mapDelete (m : List (String × α)) (k : String) :
    (mapDelete m k).map (fun e => e.1) =
      (m.map (fun e => e.1)).filter (fun x => ¬ x = k) := by
  induction m with
  | nil => simp [mapDelete]
  | cons e t ih =>
    by_cases hh : e.1 = k <;>
      simp [mapDelete, List.filter_cons, hh, ih] at ih ⊢ <;>
      simp [← ih, mapDelete]

theorem mem_setAdd {s : List String} {x y : String} :
    y ∈ setAdd s x ↔ y ∈ s ∨ y = x := by
  unfold setAdd
  by_cases h : x ∈ s
  · simp only [if_pos h]
    constructor
    · exact Or.inl
    · rintro (hy | rfl)
      · exact hy
      · exact h
  · simp [if_neg h]

theorem mem_setRemove {s : List String} {x y : String} :
    y ∈ setRemove s x ↔ y ∈ s ∧ ¬ y = x := by
  simp [setRemove, List.mem_filter]

theorem nodup_keys_mapSet {m : List (String × α)} {k : String} {v : α}
    (h : (m.map (fun e => e.1)).Nodup) :
    ((mapSet m k v).map (fun e => e.1)).Nodup := by
  cases hg : mapGet m k with
  | some w => rw [keys_mapSet_of_get_some hg]; exact h
  | none =>
    rw [keys_mapSet_of_get_none hg]
    refine List.Nodup.append h (List.nodup_singleton k) ?_
    intro a ha hb
    rw [List.mem_singleton] at hb
    subst hb
    induction m with
    | nil => simp at ha
    | cons e t ih =>
      rw [mapGet_cons] at hg
      by_cases hh : e.1 = a
      · rw [if_pos hh] at hg; cases hg
      · rw [if_neg hh] at hg
        rcases List.mem_cons.mp ha with h1 | h1
        · exact hh h1.symm
        · exact ih (List.Nodup.of_cons h) h1 hg

theorem nodup_keys_mapDelete {m : List (String × α)} {k : String}
    (h : (m.map (fun e => e.1)).Nodup) :
    ((mapDelete m k).map (fun e => e.1)).Nodup := by
  rw [keys_mapDelete]
  exact List.Nodup.filter _ h

theorem mapGet_eq_none_iff {m : List (String × α)} {k : String} :
    mapGet m k = none ↔ k ∉ m.map (fun e => e.1) := by
  induction m with
  | nil => simp
  | cons e t ih =>
    rw [mapGet_cons]
    by_cases hh : e.1 = k
    · simp [hh]
    · rw [if_neg hh, ih]
      simp only [List.map_cons, List.mem_cons]
      constructor
      · intro h hk
        rcases hk with hk | hk
        · exact hh hk.symm
        · exact h hk
      · intro h hk
        exact h (Or.inr hk)

theorem mapGet_some_mem {m : List (String × α)} {k : String} {v : α}
    (h : mapGet m k = some v) : (k, v) ∈ m := by
  induction m with
  | nil => cases h
  | cons e t ih =>
    rw [mapGet_cons] at h
    by_cases hh : e.1 = k
    · rw [if_pos hh] at h
      have hv := Option.some.inj h
      have he : (k, v) = e := by
        cases e with
        | mk a b =>
          simp only [Prod.mk.injEq]
          exact ⟨hh.symm, hv.symm⟩
      rw [he]
      exact List.mem_cons_self _ _
    · rw [if_neg hh] at h
      exact List.mem_cons_of_mem _ (ih h)

theorem mapGet_of_mem_nodup {m : List (String × α)} {k : String} {v : α}
    (hmem : (k, v) ∈ m) (hnd : (m.map (fun e => e.1)).Nodup) :
    mapGet m k = some v := by
  induction m with
  | nil => cases hmem
  | cons e t ih =>
    simp only [List.map_cons, List.nodup_cons] at hnd
    rcases List.mem_cons.mp hmem with h | h
    · rw [← h, mapGet_cons]
      simp
    · rw [mapGet_cons]
      by_cases hh : e.1 = k
      · exact absurd (List.mem_map.mpr ⟨(k, v), h, hh.symm⟩) hnd.1
      · rw [if_neg hh]
        exact ih h hnd.2

theorem mem_mapSet_nodup {m : List (String × α)} {k : String} {v : α}
    {e : String × α} (hnd : (m.map (fun x => x.1)).Nodup)
    (h : e ∈ mapSet m k v) : e = (k, v) ∨ (e ∈ m ∧ ¬ e.1 = k) := by
  induction m with
  | nil =>
    exact Or.inl (by simpa [mapSet] using h)
  | cons hd t ih =>
    simp only [List.map_cons, List.nodup_cons] at hnd
    by_cases hh : hd.1 = k
    · rw [mapSet, if_pos hh] at h
      rcases List.mem_cons.mp h with h1 | h1
      · exact Or.inl h1
      · refine Or.inr ⟨List.mem_cons_of_mem _ h1, fun hk => ?_⟩
        exact hnd.1 (hh ▸ hk ▸ List.mem_map.mpr ⟨e, h1, rfl⟩)
    · rw [mapSet, if_neg hh] at h
      rcases List.mem_cons.mp h with h1 | h1
      · refine Or.inr ⟨h1 ▸ List.mem_cons_self _ _, fun hk => ?_⟩
        exact hh (by rw [h1] at hk; exact hk)
      · rcases ih hnd.2 h1 with h2 | h2
        · exact Or.inl h2
        · exact Or.inr ⟨List.mem_cons_of_mem _ h2.1, h2.2⟩

theorem mem_foldl_setAdd {l : List String} {a : List String} {x : String} :
    x ∈ l.foldl setAdd a ↔ x ∈ a ∨ x ∈ l := by
  induction l generalizing a with
  | nil => simp
  | cons y t ih =>
    rw [List.foldl_cons, ih, mem_setAdd]
    constructor
    · rintro ((h | h) | h)
      · exact Or.inl h
      · exact Or.inr (h ▸ List.mem_cons_self _ _)
      · exact Or.inr (List.mem_cons_of_mem _ h)
    · rintro (h | h)
      · exact Or.inl (Or.inl h)
      · rcases List.mem_cons.mp h with h | h
        · exact Or.inl (Or.inr h)
        · exact Or.inr h

end MapLemmas

section WSLemmas

open WebSocketService

theorem wsVisit_idkey {s : WSState} (h : WSIdKey s) (k : String) :
    WSIdKey (wsHeartbeatVisit s k).1 := by
  unfold wsHeartbeatVisit
  cases hg : mapGet s.clients k with
  | none => simpa using h
  | some ws =>
    have hm := mapGet_some_mem hg
    have hid : ws.id = k := h _ hm
    by_cases ha : ws.isAlive = false
    · simp only [hg, ha, if_pos rfl]
      intro e he
      exact h _ (mem_mapDelete.mp he).1
    · simp only [hg, ha, if_neg ha]
      intro e he
      rcases mem_mapSet he with h1 | h1
      · rw [h1]; exact hid
      · exact h _ h1

theorem wsVisit_nodup {s : WSState}
    (h : (s.clients.map (fun e => e.1)).Nodup) (k : String) :
    ((wsHeartbeatVisit s k).1.clients.map (fun e => e.1)).Nodup := by
  unfold wsHeartbeatVisit
  cases hg : mapGet s.clients k with
  | none => simpa using h
  | some ws =>
    by_cases ha : ws.isAlive = false
    · simp only [hg, ha, if_pos rfl]
      exact nodup_keys_mapDelete h
    · simp only [hg, ha, if_neg ha]
      exact nodup_keys_mapSet h

theorem wsLoop_idkey {ks : List String} {s : WSState} (h : WSIdKey s) :
    WSIdKey (wsHeartbeatLoop ks s).1 := by
  induction ks generalizing s with
  | nil => exact h
  | cons k t ih => exact ih (wsVisit_idkey h k)

theorem wsLoop_nodup {ks : List String} {s : WSState}
    (h : (s.clients.map (fun e => e.1)).Nodup) :
    ((wsHeartbeatLoop ks s).1.clients.map (fun e => e.1)).Nodup := by
  induction ks generalizing s with
  | nil => exact h
  | cons k t ih => exact ih (wsVisit_nodup h k)

theorem wsVisit_frame {s : WSState} {k k' : String} (h : WSIdKey s)
    (hne : ¬ k = k') :
    mapGet (wsHeartbeatVisit s k').1.clients k = mapGet s.clients k := by
  unfold wsHeartbeatVisit
  cases hg : mapGet s.clients k' with
  | none => rfl
  | some ws =>
    have hid : ws.id = k' := h _ (mapGet_some_mem hg)
    by_cases ha : ws.isAlive = false
    · simp [hg, ha, hid, mapGet_mapDelete, hne]
    · simp [hg, ha, mapGet_mapSet, hne]

theorem wsLoop_frame {ks : List String} {s : WSState} {k : String}
    (h : WSIdKey s) (hk : k ∉ ks) :
    mapGet (wsHeartbeatLoop ks s).1.clients k = mapGet s.clients k := by
  induction ks generalizing s with
  | nil => rfl
  | cons k' t ih =>
    have hne : ¬ k = k' := fun hh => hk (hh ▸ List.mem_cons_self _ _)
    have h2 := ih (s := (wsHeartbeatVisit s k').1) (wsVisit_idkey h k')
      (fun hh => hk (List.mem_cons_of_mem _ hh))
    rw [wsHeartbeatLoop]
    exact h2.trans (wsVisit_frame h hne)

theorem wsHeartbeatLoop_cons (k : String) (ks : List String) (s : WSState) :
    wsHeartbeatLoop (k :: ks) s =
      ((wsHeartbeatLoop ks (wsHeartbeatVisit s k).1).1,
        (wsHeartbeatVisit s k).2 ++
          (wsHeartbeatLoop ks (wsHeartbeatVisit s k).1).2) :=
  rfl

theorem wsLoop_append (l1 l2 : List String) (s : WSState) :
    wsHeartbeatLoop (l1 ++ l2) s =
      ((wsHeartbeatLoop l2 (wsHeartbeatLoop l1 s).1).1,
        (wsHeartbeatLoop l1 s).2 ++ (wsHeartbeatLoop l2 (wsHeartbeatLoop l1 s).1).2) := by
  induction l1 generalizing s with
  | nil => simp [wsHeartbeatLoop]
  | cons k t ih =>
    simp only [List.cons_append, wsHeartbeatLoop, List.append_eq]
    rw [ih]
    simp [List.append_assoc]

theorem wsLoop_all_false {ks : List String} {s : WSState} (hid : WSIdKey s)
    (hnd : (s.clients.map (fun e => e.1)).Nodup)
    (hpre : ∀ e ∈ s.clients, e.1 ∈ ks ∨ e.2.isAlive = false) :
    ∀ e ∈ (wsHeartbeatLoop ks s).1.clients, e.2.isAlive = false := by
  induction ks generalizing s with
  | nil =>
    intro e he
    rcases hpre e he with h | h
    · cases h
    · exact h
  | cons k t ih =>
    rw [wsHeartbeatLoop]
    refine ih (wsVisit_idkey hid k) (wsVisit_nodup hnd k) ?_
    intro e he
    unfold wsHeartbeatVisit at he
    cases hg : mapGet s.clients k with
    | none =>
      rw [hg] at he
      rcases hpre e he with h | h
      · rcases List.mem_cons.mp h with h1 | h1
        · exfalso
          exact (mapGet_eq_none_iff.mp hg)
            (h1 ▸ List.mem_map.mpr ⟨e, he, rfl⟩)
        · exact Or.inl h1
      · exact Or.inr h
    | some ws =>
      have hidk : ws.id = k := hid _ (mapGet_some_mem hg)
      by_cases ha : ws.isAlive = false
      · rw [hg] at he
        simp only [ha, if_pos rfl] at he
        have := mem_mapDelete.mp he
        rcases hpre e this.1 with h | h
        · rcases List.mem_cons.mp h with h1 | h1
          · exact absurd (hidk ▸ h1) (fun hh => this.2 (by rw [← hh]))
          · exact Or.inl h1
        · exact Or.inr h
      · rw [hg] at he
        simp only [ha, if_neg ha] at he
        rcases mem_mapSet_nodup hnd he with h1 | h1
        · exact Or.inr (by rw [h1])
        · rcases hpre e h1.1 with h | h
          · rcases List.mem_cons.mp h with h2 | h2
            · exact absurd h2 h1.2
            · exact Or.inl h2
          · exact Or.inr h

theorem wsLoop_all_dead_gone {ks : List String} {s : WSState}
    (hid : WSIdKey s)
    (hdead : ∀ e ∈ s.clients, e.2.isAlive = false)
    (hsub : ∀ e ∈ s.clients, e.1 ∈ ks) :
    (wsHeartbeatLoop ks s).1.clients = [] := by
  induction ks generalizing s with
  | nil =>
    rcases hs : s.clients with _ | ⟨e, t⟩
    · exact hs ▸ rfl
    · exact absurd (hsub e (hs ▸ List.mem_cons_self _ _)) (by simp)
  | cons k t ih =>
    rw [wsHeartbeatLoop]
    unfold wsHeartbeatVisit
    cases hg : mapGet s.clients k with
    | none =>
      refine ih hid hdead ?_
      intro e he
      rcases List.mem_cons.mp (hsub e he) with h1 | h1
      · exact absurd (h1 ▸ List.mem_map.mpr ⟨e, he, rfl⟩)
          (mapGet_eq_none_iff.mp hg)
      · exact h1
    | some ws =>
      have hidk : ws.id = k := hid _ (mapGet_some_mem hg)
      have ha : ws.isAlive = false := hdead _ (mapGet_some_mem hg)
      simp only [ha, if_pos rfl]
      refine ih ?_ ?_ ?_
      · intro e he
        exact hid _ (mem_mapDelete.mp he).1
      · intro e he
        exact hdead _ (mem_mapDelete.mp he).1
      · intro e he
        have h2 := mem_mapDelete.mp he
        rcases List.mem_cons.mp (hsub e h2.1) with h1 | h1
        · exact absurd (hidk ▸ h1) (fun hh => h2.2 (by rw [← hh]))
        · exact h1

end WSLemmas

section BroadcastLemmas

open SSEService

theorem sendEvent_ok_of {cfg : SSEConfig} {c : SSEClient} {ev : SSEEvent}
    {now : String} (hen : cfg.enabled = true)
    (hf : c.response.failing = false) (hsz : sizeOk cfg ev) :
    ∃ c', sendEvent cfg c ev now = .ok (c', [buildMessage ev]) ∧
      c'.id = c.id ∧ c'.topics = c.topics ∧ c'.response = c.response := by
  have hcond : ¬ (cfg.maxEventSize ≠ 0 ∧
      ev.data.utf8ByteSize > cfg.maxEventSize) := by
    rcases hsz with h | h
    · intro hc; exact hc.1 h
    · intro hc; exact absurd hc.2 (Nat.not_lt.mpr h)
  cases hid : strTruthy ev.id with
  | none =>
    exact ⟨{ c with lastHeartbeatAt := now },
      by simp [sendEvent, hen, hid, hcond, hf], rfl, rfl, rfl⟩
  | some i =>
    exact ⟨{ c with lastEventId := some i, lastHeartbeatAt := now },
      by simp [sendEvent, hen, hid, hcond, hf], rfl, rfl, rfl⟩

theorem sendEvent_error_of_failing {cfg : SSEConfig} {c : SSEClient}
    {ev : SSEEvent} {now : String} (hen : cfg.enabled = true)
    (hf : c.response.failing = true) :
    sendEvent cfg c ev now = .error () := by
  by_cases hcond : cfg.maxEventSize ≠ 0 ∧
      ev.data.utf8ByteSize > cfg.maxEventSize
  · cases hid : strTruthy ev.id <;> simp [sendEvent, hen, hid, hcond]
  · cases hid : strTruthy ev.id <;> simp [sendEvent, hen, hid, hcond, hf]

theorem sendEvent_error_of_oversize {cfg : SSEConfig} {c : SSEClient}
    {ev : SSEEvent} {now : String} (hen : cfg.enabled = true)
    (hbig : cfg.maxEventSize ≠ 0 ∧
      ev.data.utf8ByteSize > cfg.maxEventSize) :
    sendEvent cfg c ev now = .error () := by
  cases hid : strTruthy ev.id <;> simp [sendEvent, hen, hid, hbig]

theorem sendEvent_ok_shape {cfg : SSEConfig} {c : SSEClient} {ev : SSEEvent}
    {now : String} {p : SSEClient × List String}
    (h : sendEvent cfg c ev now = .ok p) :
    p.1.id = c.id ∧ p.1.topics = c.topics ∧ p.1.response = c.response := by
  unfold sendEvent at h
  by_cases hen : cfg.enabled = false
  · rw [if_pos hen] at h
    injection h with hv
    subst hv
    exact ⟨rfl, rfl, rfl⟩
  · rw [if_neg hen] at h
    by_cases hcond : cfg.maxEventSize ≠ 0 ∧
        ev.data.utf8ByteSize > cfg.maxEventSize
    · rw [if_pos hcond] at h
      cases h
    · rw [if_neg hcond] at h
      by_cases hfail : c.response.failing = true
      · rw [if_pos hfail] at h
        cases h
      · rw [if_neg hfail] at h
        injection h with hv
        subst hv
        cases hid : strTruthy ev.id <;> simp [hid]

theorem removeClient_branches (s : SSEState) (cid : String) :
    ((removeClient s cid).clients = mapDelete s.clients cid ∧
      (mapGet s.clients cid).isSome = true) ∨
      removeClient s cid = s := by
  unfold removeClient
  cases hg : mapGet s.clients cid with
  | none => exact Or.inr rfl
  | some c => exact Or.inl ⟨rfl, rfl⟩

theorem removeClient_get_self (s : SSEState) (cid : String) :
    mapGet (removeClient s cid).clients cid = none := by
  unfold removeClient
  cases hg : mapGet s.clients cid with
  | none => exact hg
  | some c => simp [mapGet_mapDelete]

theorem removeClient_get_ne {s : SSEState} {cid x : String} (h : ¬ x = cid) :
    mapGet (removeClient s cid).clients x = mapGet s.clients x := by
  unfold removeClient
  cases hg : mapGet s.clients cid with
  | none => rfl
  | some c => simp [mapGet_mapDelete, h]

theorem removeClient_idkey {s : SSEState} (hid : IdKey s) (cid : String) :
    IdKey (removeClient s cid) := by
  rcases removeClient_branches s cid with h | h
  · intro e he
    rw [h.1] at he
    exact hid _ (mem_mapDelete.mp he).1
  · rw [h]
    exact hid

theorem removeClient_nodup {s : SSEState} (hnd : KeysNodup s) (cid : String) :
    KeysNodup (removeClient s cid) := by
  rcases removeClient_branches s cid with h | h
  · unfold KeysNodup
    rw [h.1]
    exact nodup_keys_mapDelete hnd
  · rw [h]
    exact hnd

theorem removeClient_sub_mem {s : SSEState} {cid : String}
    {e : String × SSEClient} (he : e ∈ (removeClient s cid).clients) :
    e ∈ s.clients := by
  rcases removeClient_branches s cid with h | h
  · rw [h.1] at he
    exact (mem_mapDelete.mp he).1
  · rw [h] at he
    exact he

theorem mapDelete_eq_self {α : Type} {m : List (String × α)} {k : String}
    (h : ∀ e ∈ m, ¬ e.1 = k) : mapDelete m k = m := by
  unfold mapDelete
  refine List.filter_eq_self.mpr ?_
  intro e he
  simpa using h e he

theorem removeClient_subs_of_safe {s : SSEState} (hsafe : SubsSafe s)
    (cid : String) : (removeClient s cid).subscriptions = s.subscriptions := by
  unfold removeClient
  cases hg : mapGet s.clients cid with
  | none => rfl
  | some c =>
    show List.foldl (fun m sub => mapDelete m sub.topic) s.subscriptions
        ((s.subscriptions.map (fun e => e.2)).filter
          (fun sub => sub.clientId = cid)) = s.subscriptions
    have key : ∀ l : List SSESubscription,
        (∀ sub ∈ l, ∀ e ∈ s.subscriptions, ¬ e.1 = sub.topic) →
        List.foldl (fun m sub => mapDelete m sub.topic) s.subscriptions l =
          s.subscriptions := by
      intro l
      induction l with
      | nil => intro _; rfl
      | cons sub t ih =>
        intro hl
        rw [List.foldl_cons,
          mapDelete_eq_self (fun e he => hl sub (List.mem_cons_self _ _) e he)]
        exact ih (fun sb hsb e he => hl sb (List.mem_cons_of_mem _ hsb) e he)
    refine key _ ?_
    intro sub hsub e he
    have h2 := List.mem_filter.mp hsub
    obtain ⟨e2, he2, hmap⟩ := List.mem_map.mp h2.1
    exact hmap ▸ hsafe e he e2 he2

theorem broadcastVisit_none {cfg : SSEConfig} {fe : SSEEvent} {now : String}
    {s : SSEState} {k : String} (hg : mapGet s.clients k = none) :
    broadcastVisit cfg fe now s k = (s, [], 0) := by
  simp [broadcastVisit, hg]

theorem broadcastVisit_skip {cfg : SSEConfig} {fe : SSEEvent} {now : String}
    {s : SSEState} {k : String} {client : SSEClient} {t : String}
    (hg : mapGet s.clients k = some client)
    (hto : strTruthy fe.topic = some t) (hmt : t ∉ client.topics) :
    broadcastVisit cfg fe now s k = (s, [], 0) := by
  simp [broadcastVisit, hg, hto, hmt]

theorem broadcastVisit_eq {cfg : SSEConfig} {fe : SSEEvent} {now : String}
    {s : SSEState} {k : String} {client : SSEClient} {t : String}
    (hg : mapGet s.clients k = some client)
    (hto : strTruthy fe.topic = some t) (hmt : t ∈ client.topics) :
    broadcastVisit cfg fe now s k =
      (if filterRejects (subFor s client fe) fe = true then (s, [], 0)
       else
        match sendEvent cfg client
            (xformEvent (subFor s client fe) fe) now with
        | .ok p =>
          ({ s with clients := (mapSet s.clients k
              { p.1 with lastEventAt := now }) },
            p.2.map (fun m => (k, m)), 1)
        | .error _ => (removeClient s client.id, [], 0)) := by
  simp only [broadcastVisit, hg, hto, subFor, decide_eq_true_eq]
  rw [if_pos hmt]
  by_cases hfr :
      filterRejects (mapGet s.subscriptions (client.id ++ ":" ++ t)) fe = true
  · rw [if_pos hfr, if_pos hfr]
  · rw [if_neg hfr, if_neg hfr]
    cases hse : sendEvent cfg client
        (xformEvent (mapGet s.subscriptions (client.id ++ ":" ++ t)) fe)
        now with
    | ok p =>
      obtain ⟨c', ws⟩ := p
      rfl
    | error e => rfl

theorem broadcastVisit_global {cfg : SSEConfig} {fe : SSEEvent}
    {now : String} {s : SSEState} {k : String} {client : SSEClient}
    (hg : mapGet s.clients k = some client)
    (hto : strTruthy fe.topic = none) :
    broadcastVisit cfg fe now s k =
      (match sendEvent cfg client fe now with
        | .ok p =>
          ({ s with clients := (mapSet s.clients k
              { p.1 with lastEventAt := now }) },
            p.2.map (fun m => (k, m)), 1)
        | .error _ => (removeClient s client.id, [], 0)) := by
  simp only [broadcastVisit, hg, hto, subFor, filterRejects, xformEvent]
  cases hse : sendEvent cfg client fe now with
  | ok p =>
    obtain ⟨c', ws⟩ := p
    rfl
  | error e => rfl

theorem broadcastVisit_out (cfg : SSEConfig) (fe : SSEEvent) (now : String)
    (s : SSEState) (k : String) :
    broadcastVisit cfg fe now s k = (s, [], 0) ∨
    (∃ client p,
      mapGet s.clients k = some client ∧
      broadcastVisit cfg fe now s k =
        ({ s with clients := (mapSet s.clients k
            { p.1 with lastEventAt := now }) },
          p.2.map (fun m => (k, m)), 1) ∧
      sendEvent cfg client (xformEvent (subFor s client fe) fe) now =
        .ok p ∧
      (strTruthy fe.topic = none ∨
        ∃ u, strTruthy fe.topic = some u ∧ u ∈ client.topics ∧
          filterRejects (subFor s client fe) fe = false)) ∨
    (∃ client,
      mapGet s.clients k = some client ∧
      broadcastVisit cfg fe now s k = (removeClient s client.id, [], 0)) := by
  cases hg : mapGet s.clients k with
  | none => exact Or.inl (broadcastVisit_none hg)
  | some client =>
    cases hto : strTruthy fe.topic with
    | none =>
      have hsub : subFor s client fe = none := by simp [subFor, hto]
      cases hse : sendEvent cfg client fe now with
      | ok p =>
        refine Or.inr (Or.inl ⟨client, p, rfl, ?_, ?_, Or.inl rfl⟩)
        · rw [broadcastVisit_global hg hto, hse]
        · rw [hsub]
          exact hse
      | error e =>
        refine Or.inr (Or.inr ⟨client, rfl, ?_⟩)
        rw [broadcastVisit_global hg hto, hse]
    | some t =>
      by_cases hmt : t ∈ client.topics
      · by_cases hfr : filterRejects (subFor s client fe) fe = true
        · exact Or.inl (by rw [broadcastVisit_eq hg hto hmt, if_pos hfr])
        · cases hse : sendEvent cfg client
              (xformEvent (subFor s client fe) fe) now with
          | ok p =>
            refine Or.inr (Or.inl ⟨client, p, rfl, ?_, hse,
              Or.inr ⟨t, rfl, hmt, Bool.eq_false_iff.mpr hfr⟩⟩)
            rw [broadcastVisit_eq hg hto hmt, if_neg hfr, hse]
          | error e =>
            refine Or.inr (Or.inr ⟨client, rfl, ?_⟩)
            rw [broadcastVisit_eq hg hto hmt, if_neg hfr, hse]
      · exact Or.inl (broadcastVisit_skip hg hto hmt)

theorem broadcastVisit_subs {cfg : SSEConfig} {fe : SSEEvent} {now : String}
    {s : SSEState} (hsafe : SubsSafe s) (k : String) :
    (broadcastVisit cfg fe now s k).1.subscriptions = s.subscriptions := by
  rcases broadcastVisit_out cfg fe now s k with h | ⟨c, p, hg, h, hse, hc⟩ |
    ⟨c, hg, h⟩
  · rw [h]
  · rw [h]
  · rw [h]
    exact removeClient_subs_of_safe hsafe c.id

theorem broadcastVisit_idkey {cfg : SSEConfig} {fe : SSEEvent} {now : String}
    {s : SSEState} (hid : IdKey s) (k : String) :
    IdKey (broadcastVisit cfg fe now s k).1 := by
  rcases broadcastVisit_out cfg fe now s k with h | ⟨c, p, hg, h, hse, hc⟩ |
    ⟨c, hg, h⟩
  · rw [h]
    exact hid
  · rw [h]
    intro e he
    rcases mem_mapSet he with h1 | h1
    · rw [h1]
      exact (sendEvent_ok_shape hse).1.trans (hid _ (mapGet_some_mem hg))
    · exact hid _ h1
  · rw [h]
    exact removeClient_idkey hid c.id

theorem broadcastVisit_nodup {cfg : SSEConfig} {fe : SSEEvent} {now : String}
    {s : SSEState} (hnd : KeysNodup s) (k : String) :
    KeysNodup (broadcastVisit cfg fe now s k).1 := by
  rcases broadcastVisit_out cfg fe now s k with h | ⟨c, p, hg, h, hse, hc⟩ |
    ⟨c, hg, h⟩
  · rw [h]
    exact hnd
  · rw [h]
    exact nodup_keys_mapSet hnd
  · rw [h]
    exact removeClient_nodup hnd c.id

theorem broadcastVisit_get_ne {cfg : SSEConfig} {fe : SSEEvent}
    {now : String} {s : SSEState} {x k : String} (hid : IdKey s)
    (hne : ¬ x = k) :
    mapGet (broadcastVisit cfg fe now s k).1.clients x =
      mapGet s.clients x := by
  rcases broadcastVisit_out cfg fe now s k with h | ⟨c, p, hg, h, hse, hc⟩ |
    ⟨c, hg, h⟩
  · rw [h]
  · rw [h]
    simp [mapGet_mapSet, hne]
  · rw [h]
    have hcid : c.id = k := hid _ (mapGet_some_mem hg)
    exact removeClient_get_ne (hcid ▸ hne)

theorem broadcastVisit_writes {cfg : SSEConfig} {fe : SSEEvent}
    {now : String} {s : SSEState} {k : String} :
    ∀ w ∈ (broadcastVisit cfg fe now s k).2.1, w.1 = k := by
  rcases broadcastVisit_out cfg fe now s k with h | ⟨c, p, hg, h, hse, hc⟩ |
    ⟨c, hg, h⟩
  · rw [h]
    intro w hw
    cases hw
  · rw [h]
    intro w hw
    obtain ⟨m, hm, hwm⟩ := List.mem_map.mp hw
    rw [← hwm]
  · rw [h]
    intro w hw
    cases hw

theorem broadcastLoop_cons (cfg : SSEConfig) (fe : SSEEvent) (now : String)
    (k : String) (ks : List String) (s : SSEState) :
    broadcastLoop cfg fe now (k :: ks) s =
      ((broadcastLoop cfg fe now ks (broadcastVisit cfg fe now s k).1).1,
        (broadcastVisit cfg fe now s k).2.1 ++
          (broadcastLoop cfg fe now ks
            (broadcastVisit cfg fe now s k).1).2.1,
        (broadcastVisit cfg fe now s k).2.2 +
          (broadcastLoop cfg fe now ks
            (broadcastVisit cfg fe now s k).1).2.2) :=
  rfl

theorem broadcastLoop_append (cfg : SSEConfig) (fe : SSEEvent) (now : String)
    (l1 l2 : List String) (s : SSEState) :
    broadcastLoop cfg fe now (l1 ++ l2) s =
      ((broadcastLoop cfg fe now l2 (broadcastLoop cfg fe now l1 s).1).1,
        (broadcastLoop cfg fe now l1 s).2.1 ++
          (broadcastLoop cfg fe now l2
            (broadcastLoop cfg fe now l1 s).1).2.1,
        (broadcastLoop cfg fe now l1 s).2.2 +
          (broadcastLoop cfg fe now l2
            (broadcastLoop cfg fe now l1 s).1).2.2) := by
  induction l1 generalizing s with
  | nil => simp [broadcastLoop]
  | cons k t ih =>
    simp only [List.cons_append, broadcastLoop_cons, List.append_eq]
    rw [ih]
    simp [List.append_assoc, Nat.add_assoc]

theorem broadcastLoop_subs {cfg : SSEConfig} {fe : SSEEvent} {now : String}
    {ks : List String} {s : SSEState} (hsafe : SubsSafe s) :
    (broadcastLoop cfg fe now ks s).1.subscriptions = s.subscriptions := by
  induction ks generalizing s with
  | nil => rfl
  | cons k t ih =>
    have h1 := @broadcastVisit_subs cfg fe now s hsafe k
    have hsafe' : SubsSafe (broadcastVisit cfg fe now s k).1 := by
      unfold SubsSafe
      rw [h1]
      exact hsafe
    rw [broadcastLoop_cons]
    exact (ih hsafe').trans h1

theorem broadcastLoop_safe {cfg : SSEConfig} {fe : SSEEvent} {now : String}
    {ks : List String} {s : SSEState} (hsafe : SubsSafe s) :
    SubsSafe (broadcastLoop cfg fe now ks s).1 := by
  unfold SubsSafe
  rw [broadcastLoop_subs hsafe]
  exact hsafe

theorem broadcastLoop_idkey {cfg : SSEConfig} {fe : SSEEvent} {now : String}
    {ks : List String} {s : SSEState} (hid : IdKey s) :
    IdKey (broadcastLoop cfg fe now ks s).1 := by
  induction ks generalizing s with
  | nil => exact hid
  | cons k t ih =>
    rw [broadcastLoop_cons]
    exact ih (broadcastVisit_idkey hid k)

theorem broadcastLoop_nodup {cfg : SSEConfig} {fe : SSEEvent} {now : String}
    {ks : List String} {s : SSEState} (hnd : KeysNodup s) :
    KeysNodup (broadcastLoop cfg fe now ks s).1 := by
  induction ks generalizing s with
  | nil => exact hnd
  | cons k t ih =>
    rw [broadcastLoop_cons]
    exact ih (broadcastVisit_nodup hnd k)

theorem broadcastLoop_frame {cfg : SSEConfig} {fe : SSEEvent} {now : String}
    {ks : List String} {s : SSEState} {x : String} (hid : IdKey s)
    (hx : x ∉ ks) :
    mapGet (broadcastLoop cfg fe now ks s).1.clients x =
      mapGet s.clients x := by
  induction ks generalizing s with
  | nil => rfl
  | cons k t ih =>
    have hne : ¬ x = k := fun hh => hx (hh ▸ List.mem_cons_self _ _)
    rw [broadcastLoop_cons]
    exact (ih (broadcastVisit_idkey hid k)
        (fun hh => hx (List.mem_cons_of_mem _ hh))).trans
      (broadcastVisit_get_ne hid hne)

theorem broadcastLoop_writes {cfg : SSEConfig} {fe : SSEEvent} {now : String}
    {ks : List String} {s : SSEState} :
    ∀ w ∈ (broadcastLoop cfg fe now ks s).2.1, w.1 ∈ ks := by
  induction ks generalizing s with
  | nil =>
    intro w hw
    cases hw
  | cons k t ih =>
    rw [broadcastLoop_cons]
    intro w hw
    rcases List.mem_append.mp hw with h | h
    · exact (broadcastVisit_writes w h) ▸ List.mem_cons_self _ _
    · exact List.mem_cons_of_mem _ (ih w h)

theorem broadcast_eq_loop {cfg : SSEConfig} {s : SSEState} {event : SSEEvent}
    {now : String} (hen : cfg.enabled = true) :
    broadcast cfg s event now =
      ⟨(broadcastLoop cfg (finalizeEvent event now) now
          (s.clients.map (fun e => e.1)) s).1,
        (broadcastLoop cfg (finalizeEvent event now) now
          (s.clients.map (fun e => e.1)) s).2.1,
        (broadcastLoop cfg (finalizeEvent event now) now
          (s.clients.map (fun e => e.1)) s).2.2⟩ := by
  simp [broadcast, hen]

theorem broadcast_writes_filter_key {cfg : SSEConfig} {s : SSEState}
    {event : SSEEvent} {now t k : String} {c : SSEClient}
    (hen : cfg.enabled = true)
    (htop : strTruthy event.topic = some t)
    (hid : IdKey s) (hnd : KeysNodup s) (hsafe : SubsSafe s)
    (hmem : (k, c) ∈ s.clients)
    (hf : c.response.failing = false)
    (hsz : sizeOk cfg (xformEvent
      (subFor s c (finalizeEvent event now)) (finalizeEvent event now))) :
    (broadcast cfg s event now).writes.filter (fun w => w.1 = k) =
      if t ∈ c.topics then
        (if filterRejects (subFor s c (finalizeEvent event now))
            (finalizeEvent event now) = true then []
         else [(k, buildMessage (xformEvent
            (subFor s c (finalizeEvent event now))
            (finalizeEvent event now)))])
      else [] := by
  have hfe_top : strTruthy (finalizeEvent event now).topic = some t := htop
  have hkeys : k ∈ s.clients.map (fun e => e.1) :=
    List.mem_map.mpr ⟨(k, c), hmem, rfl⟩
  obtain ⟨l1, l2, hsplit⟩ := List.append_of_mem hkeys
  have hnd' : (l1 ++ k :: l2).Nodup := hsplit ▸ hnd
  obtain ⟨hnd1, hnd2, hdisj⟩ := List.nodup_append.mp hnd'
  have hk1 : k ∉ l1 := fun hk => hdisj hk (List.mem_cons_self _ _)
  have hk2 : k ∉ l2 := (List.nodup_cons.mp hnd2).1
  have hget : mapGet s.clients k = some c := mapGet_of_mem_nodup hmem hnd
  have hget1 : mapGet (broadcastLoop cfg (finalizeEvent event now) now l1
      s).1.clients k = some c :=
    (broadcastLoop_frame hid hk1).trans hget
  have hid1 : IdKey (broadcastLoop cfg (finalizeEvent event now) now l1 s).1 :=
    broadcastLoop_idkey hid
  have hsafe1 : SubsSafe
      (broadcastLoop cfg (finalizeEvent event now) now l1 s).1 :=
    broadcastLoop_safe hsafe
  have hsub1 : subFor (broadcastLoop cfg (finalizeEvent event now) now l1 s).1
      c (finalizeEvent event now) = subFor s c (finalizeEvent event now) := by
    unfold subFor
    rw [hfe_top, broadcastLoop_subs hsafe]
  rw [broadcast_eq_loop hen]
  show ((broadcastLoop cfg (finalizeEvent event now) now
      (s.clients.map (fun e => e.1)) s).2.1).filter (fun w => w.1 = k) = _
  rw [hsplit, broadcastLoop_append, broadcastLoop_cons]
  have hw1 : ((broadcastLoop cfg (finalizeEvent event now) now l1 s).2.1).filter
      (fun w => w.1 = k) = [] := by
    refine List.filter_eq_nil_iff.mpr ?_
    intro w hw
    have := broadcastLoop_writes w hw
    simp only [decide_eq_true_eq]
    intro hwk
    exact hk1 (hwk ▸ this)
  by_cases hmt : t ∈ c.topics
  · rw [broadcastVisit_eq hget1 hfe_top hmt, hsub1]
    by_cases hfr : filterRejects (subFor s c (finalizeEvent event now))
        (finalizeEvent event now) = true
    · rw [if_pos hfr]
      have hw2 : ((broadcastLoop cfg (finalizeEvent event now) now l2
          (broadcastLoop cfg (finalizeEvent event now) now l1 s).1).2.1).filter
          (fun w => w.1 = k) = [] := by
        refine List.filter_eq_nil_iff.mpr ?_
        intro w hw
        have := broadcastLoop_writes w hw
        simp only [decide_eq_true_eq]
        intro hwk
        exact hk2 (hwk ▸ this)
      simp only [List.filter_append, hw1, hw2, if_pos hmt, if_pos hfr]
      rfl
    · rw [if_neg hfr]
      obtain ⟨c', hse, hcid, htcs, hresp⟩ := sendEvent_ok_of hen hf hsz
      rw [hse]
      have hw2 : ((broadcastLoop cfg (finalizeEvent event now) now l2
          ({ (broadcastLoop cfg (finalizeEvent event now) now l1 s).1 with
            clients := (mapSet (broadcastLoop cfg (finalizeEvent event now)
              now l1 s).1.clients k
              { c' with lastEventAt := now }) })).2.1).filter
          (fun w => w.1 = k) = [] := by
        refine List.filter_eq_nil_iff.mpr ?_
        intro w hw
        have := broadcastLoop_writes w hw
        simp only [decide_eq_true_eq]
        intro hwk
        exact hk2 (hwk ▸ this)
      simp only [List.filter_append, hw1, hw2, if_pos hmt, if_neg hfr]
      simp
  · rw [broadcastVisit_skip hget1 hfe_top hmt]
    have hw2 : ((broadcastLoop cfg (finalizeEvent event now) now l2
        (broadcastLoop cfg (finalizeEvent event now) now l1 s).1).2.1).filter
        (fun w => w.1 = k) = [] := by
      refine List.filter_eq_nil_iff.mpr ?_
      intro w hw
      have := broadcastLoop_writes w hw
      simp only [decide_eq_true_eq]
      intro hwk
      exact hk2 (hwk ▸ this)
    simp only [List.filter_append, hw1, hw2, if_neg hmt]
    rfl

theorem broadcastLoop_global {cfg : SSEConfig} {fe : SSEEvent} {now : String}
    (hen : cfg.enabled = true) (hto : strTruthy fe.topic = none)
    (hsz : sizeOk cfg fe) :
    ∀ ks (s : SSEState),
      (∀ x ∈ ks, ∃ c, mapGet s.clients x = some c ∧
        c.response.failing = false) →
      (broadcastLoop cfg fe now ks s).2.1 =
        ks.map (fun x => (x, buildMessage fe)) := by
  intro ks
  induction ks with
  | nil =>
    intro s _
    rfl
  | cons k t ih =>
    intro s hks
    obtain ⟨c, hg, hf⟩ := hks k (List.mem_cons_self _ _)
    obtain ⟨c', hse, hcid, htc, hresp⟩ := sendEvent_ok_of hen hf hsz
    have hvisit : broadcastVisit cfg fe now s k =
        ({ s with clients := (mapSet s.clients k
            { c' with lastEventAt := now }) },
          [(k, buildMessage fe)], 1) := by
      rw [broadcastVisit_global hg hto, hse]
      rfl
    rw [broadcastLoop_cons, hvisit]
    show [(k, buildMessage fe)] ++ _ = _
    rw [ih]
    · simp
    · intro x hx
      by_cases hxe : x = k
      · subst hxe
        refine ⟨{ c' with lastEventAt := now }, ?_, ?_⟩
        · simp [mapGet_mapSet]
        · show c'.response.failing = false
          rw [hresp]
          exact hf
      · obtain ⟨cx, hgx, hfx⟩ := hks x (List.mem_cons_of_mem _ hx)
        refine ⟨cx, ?_, hfx⟩
        show mapGet (mapSet s.clients k { c' with lastEventAt := now })
            x = some cx
        rw [mapGet_mapSet, if_neg hxe]
        exact hgx

theorem broadcast_evicts_key {cfg : SSEConfig} {s : SSEState}
    {event : SSEEvent} {now t k : String} {c : SSEClient}
    (hen : cfg.enabled = true)
    (htop : strTruthy event.topic = some t)
    (hid : IdKey s) (hnd : KeysNodup s) (hsafe : SubsSafe s)
    (hmem : (k, c) ∈ s.clients) (hmt : t ∈ c.topics)
    (hfr : filterRejects (subFor s c (finalizeEvent event now))
      (finalizeEvent event now) = false)
    (hse : sendEvent cfg c (xformEvent
        (subFor s c (finalizeEvent event now)) (finalizeEvent event now))
        now = .error ()) :
    mapGet (broadcast cfg s event now).state.clients k = none := by
  have hfe_top : strTruthy (finalizeEvent event now).topic = some t := htop
  have hkeys : k ∈ s.clients.map (fun e => e.1) :=
    List.mem_map.mpr ⟨(k, c), hmem, rfl⟩
  obtain ⟨l1, l2, hsplit⟩ := List.append_of_mem hkeys
  have hnd' : (l1 ++ k :: l2).Nodup := hsplit ▸ hnd
  obtain ⟨hnd1, hnd2, hdisj⟩ := List.nodup_append.mp hnd'
  have hk1 : k ∉ l1 := fun hk => hdisj hk (List.mem_cons_self _ _)
  have hk2 : k ∉ l2 := (List.nodup_cons.mp hnd2).1
  have hget : mapGet s.clients k = some c := mapGet_of_mem_nodup hmem hnd
  have hget1 : mapGet (broadcastLoop cfg (finalizeEvent event now) now l1
      s).1.clients k = some c :=
    (broadcastLoop_frame hid hk1).trans hget
  have hid1 : IdKey (broadcastLoop cfg (finalizeEvent event now) now l1 s).1 :=
    broadcastLoop_idkey hid
  have hsub1 : subFor (broadcastLoop cfg (finalizeEvent event now) now l1 s).1
      c (finalizeEvent event now) = subFor s c (finalizeEvent event now) := by
    unfold subFor
    rw [hfe_top, broadcastLoop_subs hsafe]
  have hcid : c.id = k := hid _ hmem
  have hvisit : broadcastVisit cfg (finalizeEvent event now) now
      (broadcastLoop cfg (finalizeEvent event now) now l1 s).1 k =
      (removeClient
        (broadcastLoop cfg (finalizeEvent event now) now l1 s).1 c.id,
        [], 0) := by
    rw [broadcastVisit_eq hget1 hfe_top hmt, hsub1,
      if_neg (by rw [hfr]; intro hh; cases hh), hse]
  rw [broadcast_eq_loop hen]
  show mapGet (broadcastLoop cfg (finalizeEvent event now) now
      (s.clients.map (fun e => e.1)) s).1.clients k = none
  rw [hsplit, broadcastLoop_append, broadcastLoop_cons]
  show mapGet (broadcastLoop cfg (finalizeEvent event now) now l2
      (broadcastVisit cfg (finalizeEvent event now) now
        (broadcastLoop cfg (finalizeEvent event now) now l1 s).1 k).1).1.clients
      k = none
  rw [hvisit]
  show mapGet (broadcastLoop cfg (finalizeEvent event now) now l2
      (removeClient
        (broadcastLoop cfg (finalizeEvent event now) now l1 s).1
        c.id)).1.clients k = none
  rw [broadcastLoop_frame (removeClient_idkey hid1 c.id) hk2, hcid]
  exact removeClient_get_self _ k

theorem broadcast_keeps_key {cfg : SSEConfig} {s : SSEState}
    {event : SSEEvent} {now t k : String} {c : SSEClient}
    (hen : cfg.enabled = true)
    (htop : strTruthy event.topic = some t)
    (hid : IdKey s) (hnd : KeysNodup s)
    (hmem : (k, c) ∈ s.clients) (hmt : t ∉ c.topics) :
    mapGet (broadcast cfg s event now).state.clients k = some c := by
  have hfe_top : strTruthy (finalizeEvent event now).topic = some t := htop
  have hkeys : k ∈ s.clients.map (fun e => e.1) :=
    List.mem_map.mpr ⟨(k, c), hmem, rfl⟩
  obtain ⟨l1, l2, hsplit⟩ := List.append_of_mem hkeys
  have hnd' : (l1 ++ k :: l2).Nodup := hsplit ▸ hnd
  obtain ⟨hnd1, hnd2, hdisj⟩ := List.nodup_append.mp hnd'
  have hk1 : k ∉ l1 := fun hk => hdisj hk (List.mem_cons_self _ _)
  have hk2 : k ∉ l2 := (List.nodup_cons.mp hnd2).1
  have hget : mapGet s.clients k = some c := mapGet_of_mem_nodup hmem hnd
  have hget1 : mapGet (broadcastLoop cfg (finalizeEvent event now) now l1
      s).1.clients k = some c :=
    (broadcastLoop_frame hid hk1).trans hget
  have hid1 : IdKey (broadcastLoop cfg (finalizeEvent event now) now l1 s).1 :=
    broadcastLoop_idkey hid
  rw [broadcast_eq_loop hen]
  show mapGet (broadcastLoop cfg (finalizeEvent event now) now
      (s.clients.map (fun e => e.1)) s).1.clients k = some c
  rw [hsplit, broadcastLoop_append, broadcastLoop_cons]
  show mapGet (broadcastLoop cfg (finalizeEvent event now) now l2
      (broadcastVisit cfg (finalizeEvent event now) now
        (broadcastLoop cfg (finalizeEvent event now) now l1 s).1 k).1).1.clients
      k = some c
  rw [broadcastVisit_skip hget1 hfe_top hmt]
  exact (broadcastLoop_frame hid1 hk2).trans hget1

theorem broadcastLoop_oversize {cfg : SSEConfig} {fe : SSEEvent}
    {now t : String} {s0 : SSEState}
    (hto : strTruthy fe.topic = some t)
    (hbig : ∀ e ∈ s0.clients, t ∈ e.2.topics →
      filterRejects (subFor s0 e.2 fe) fe = false →
      sendEvent cfg e.2 (xformEvent (subFor s0 e.2 fe) fe) now =
        .error ()) :
    ∀ ks (s : SSEState), (∀ e ∈ s.clients, e ∈ s0.clients) →
      s.subscriptions = s0.subscriptions → SubsSafe s →
      (broadcastLoop cfg fe now ks s).2.1 = [] := by
  intro ks
  induction ks with
  | nil =>
    intro s _ _ _
    rfl
  | cons k t2 ih =>
    intro s hsub hsubs hsafe
    rw [broadcastLoop_cons]
    rcases broadcastVisit_out cfg fe now s k with h | ⟨c, p, hg, h, hse, hc⟩ |
      ⟨c, hg, h⟩
    · rw [h]
      show ([] : List (String × String)) ++ _ = []
      rw [List.nil_append]
      exact ih s hsub hsubs hsafe
    · exfalso
      have hmem := mapGet_some_mem hg
      have hcs0 := hsub _ hmem
      rcases hc with hnone | ⟨u, hu, hmt, hfr⟩
      · rw [hto] at hnone
        cases hnone
      · rw [hto] at hu
        injection hu with hu2
        subst hu2
        have hsubeq : subFor s c fe = subFor s0 c fe := by
          unfold subFor
          rw [hto, hsubs]
        rw [hsubeq] at hse hfr
        rw [hbig (k, c) hcs0 hmt hfr] at hse
        cases hse
    · rw [h]
      show ([] : List (String × String)) ++ _ = []
      rw [List.nil_append]
      refine ih _ ?_ ?_ ?_
      · intro e he
        exact hsub _ (removeClient_sub_mem he)
      · exact (removeClient_subs_of_safe hsafe c.id).trans hsubs
      · unfold SubsSafe
        rw [removeClient_subs_of_safe hsafe c.id]
        exact hsafe

end BroadcastLemmas

section InvariantLemmas

open SSEService

theorem mkClientId_length (n : Nat) : (mkClientId n).length = 7 + n := by
  show (("client_" ++ String.mk (List.replicate n 'x')).data).length = 7 + n
  rw [String.data_append]
  simp
  omega

theorem mkClientId_inj {a b : Nat} (h : mkClientId a = mkClientId b) :
    a = b := by
  have := congrArg String.length h
  rw [mkClientId_length, mkClientId_length] at this
  exact Nat.add_left_cancel this

theorem self_mem_mapSet {α : Type} (m : List (String × α)) (k : String)
    (v : α) : (k, v) ∈ mapSet m k v := by
  induction m with
  | nil => exact List.mem_cons_self _ _
  | cons e t ih =>
    by_cases hh : e.1 = k
    · rw [mapSet, if_pos hh]
      exact List.mem_cons_self _ _
    · rw [mapSet, if_neg hh]
      exact List.mem_cons_of_mem _ ih

theorem mem_of_mem_mapSet_ne {α : Type} {m : List (String × α)}
    {k : String} {v : α} {e : String × α} (h : e ∈ mapSet m k v)
    (hne : ¬ e.1 = k) : e ∈ m := by
  rcases mem_mapSet h with h1 | h1
  · exact absurd (by rw [h1]) hne
  · exact h1

theorem mem_foldl_cond_setRemove {l : List String} {a : List String}
    {P : String → Bool} {x : String} :
    x ∈ l.foldl (fun acc tp => if P tp then acc else setRemove acc tp) a ↔
      x ∈ a ∧ (x ∈ l → P x = true) := by
  induction l generalizing a with
  | nil => simp
  | cons tp t ih =>
    rw [List.foldl_cons, ih]
    by_cases hp : P tp = true
    · rw [if_pos hp]
      constructor
      · rintro ⟨h1, h2⟩
        refine ⟨h1, fun hx => ?_⟩
        rcases List.mem_cons.mp hx with hx | hx
        · exact hx ▸ hp
        · exact h2 hx
      · rintro ⟨h1, h2⟩
        exact ⟨h1, fun hx => h2 (List.mem_cons_of_mem _ hx)⟩
    · rw [if_neg hp]
      constructor
      · rintro ⟨h1, h2⟩
        have h3 := mem_setRemove.mp h1
        refine ⟨h3.1, fun hx => ?_⟩
        rcases List.mem_cons.mp hx with hx | hx
        · exact absurd (hx ▸ h3.2) (fun hc => hc rfl)
        · exact h2 hx
      · rintro ⟨h1, h2⟩
        refine ⟨mem_setRemove.mpr ⟨h1, fun hx => ?_⟩, fun hx => h2 (List.mem_cons_of_mem _ hx)⟩
        exact hp (hx ▸ h2 (hx ▸ List.mem_cons_self _ _))

theorem addClient_inv {cfg : SSEConfig} {s : SSEState} {r : SSEResponse}
    {topics : List String} {now : String} (hinv : Inv s) :
    Inv (addClient cfg s r topics now).state := by
  obtain ⟨hid, hfr, hnd, htp⟩ := hinv
  by_cases hen : cfg.enabled = false
  · simpa [addClient, hen] using ⟨hid, hfr, hnd, htp⟩
  · by_cases hcap : cfg.maxClients ≤ s.clients.length
    · simpa [addClient, hen, hcap] using ⟨hid, hfr, hnd, htp⟩
    · have hfresh : mapGet s.clients (mkClientId s.nextId) = none := by
        rw [mapGet_eq_none_iff]
        intro hk
        obtain ⟨e, he, hek⟩ := List.mem_map.mp hk
        obtain ⟨j, hj, hje⟩ := hfr e he
        rw [hje] at hek
        exact absurd (mkClientId_inj hek) (Nat.ne_of_lt hj)
      have hkey : ∀ e ∈ s.clients, ¬ e.1 = mkClientId s.nextId := by
        intro e he hek
        exact (mapGet_eq_none_iff.mp hfresh)
          (List.mem_map.mpr ⟨e, he, hek⟩)
      have hstate : (addClient cfg s r topics now).state =
          { s with
            clients := (mapSet s.clients (mkClientId s.nextId)
              { id := mkClientId s.nextId
                response := r
                topics := topics.foldl setAdd []
                connectedAt := now
                lastEventId := none
                lastEventAt := now
                lastHeartbeatAt := now })
            activeTopics := topics.foldl setAdd s.activeTopics
            nextId := s.nextId + 1 } := by
        by_cases hrf : r.failing = true <;> simp [addClient, hen, hcap, hrf]
      rw [hstate]
      refine ⟨?_, ?_, ?_, ?_⟩
      · intro e he
        rcases mem_mapSet he with h1 | h1
        · rw [h1]
        · exact hid _ h1
      · intro e he
        rcases mem_mapSet he with h1 | h1
        · exact ⟨s.nextId, Nat.lt_succ_self _, by rw [h1]⟩
        · obtain ⟨j, hj, hje⟩ := hfr e h1
          exact ⟨j, Nat.lt_succ_of_lt hj, hje⟩
      · exact nodup_keys_mapSet hnd
      · intro tt
        rw [mem_foldl_setAdd]
        constructor
        · rintro (h | h)
          · obtain ⟨e, he, hte⟩ := (htp tt).mp h
            exact ⟨e, mem_mapSet_of_ne he (hkey e he), hte⟩
          · refine ⟨_, self_mem_mapSet s.clients (mkClientId s.nextId) _, ?_⟩
            show tt ∈ topics.foldl setAdd []
            rw [mem_foldl_setAdd]
            exact Or.inr h
        · rintro ⟨e, he, hte⟩
          rcases mem_mapSet he with h1 | h1
          · rw [h1] at hte
            have : tt ∈ topics.foldl setAdd [] := hte
            rw [mem_foldl_setAdd] at this
            rcases this with h2 | h2
            · cases h2
            · exact Or.inr h2
          · exact Or.inl ((htp tt).mpr ⟨e, h1, hte⟩)

theorem entry_eq_of_nodup {α : Type} {m : List (String × α)} {k : String}
    {v : α} {e : String × α} (hnd : (m.map (fun x => x.1)).Nodup)
    (he : e ∈ m) (hek : e.1 = k) (hg : mapGet m k = some v) : e = (k, v) := by
  have hee : (e.1, e.2) ∈ m := by
    cases e
    exact he
  have h1 : mapGet m e.1 = some e.2 := mapGet_of_mem_nodup hee hnd
  rw [hek, hg] at h1
  have h2 := Option.some.inj h1
  cases e with
  | mk a b =>
    simp only [Prod.mk.injEq]
    exact ⟨hek, h2.symm⟩

theorem subscribeTopic_inv {s : SSEState} {cid now topic : String}
    (hinv : Inv s) : Inv (subscribeTopic s cid now topic) := by
  obtain ⟨hid, hfr, hnd, htp⟩ := hinv
  cases hg : mapGet s.clients cid with
  | none => simpa [subscribeTopic, hg] using ⟨hid, hfr, hnd, htp⟩
  | some c =>
    have hmem := mapGet_some_mem hg
    have hstate : subscribeTopic s cid now topic =
        { s with
          clients := (mapSet s.clients cid
            { c with topics := setAdd c.topics topic })
          activeTopics := setAdd s.activeTopics topic
          subscriptions := (mapSet s.subscriptions (cid ++ ":" ++ topic)
            { topic := topic
              clientId := cid
              filter := none
              transform := none
              createdAt := now
              updatedAt := now }) } := by
      simp [subscribeTopic, hg]
    rw [hstate]
    refine ⟨?_, ?_, ?_, ?_⟩
    · intro e he
      rcases mem_mapSet he with h1 | h1
      · rw [h1]
        exact hid (cid, c) hmem
      · exact hid _ h1
    · intro e he
      rcases mem_mapSet he with h1 | h1
      · obtain ⟨j, hj, hje⟩ := hfr _ hmem
        exact ⟨j, hj, by rw [h1]; exact hje⟩
      · exact hfr _ h1
    · show ((mapSet s.clients cid
          { c with topics := setAdd c.topics topic }).map
          (fun e => e.1)).Nodup
      rw [keys_mapSet_of_get_some hg]
      exact hnd
    · intro tt
      rw [mem_setAdd]
      constructor
      · rintro (h | h)
        · obtain ⟨e, he, hte⟩ := (htp tt).mp h
          by_cases hek : e.1 = cid
          · have heq := entry_eq_of_nodup hnd he hek hg
            refine ⟨(cid, { c with topics := setAdd c.topics topic }),
              self_mem_mapSet _ _ _, ?_⟩
            show tt ∈ setAdd c.topics topic
            rw [mem_setAdd]
            exact Or.inl (by rw [heq] at hte; exact hte)
          · exact ⟨e, mem_mapSet_of_ne he hek, hte⟩
        · refine ⟨(cid, { c with topics := setAdd c.topics topic }),
            self_mem_mapSet _ _ _, ?_⟩
          show tt ∈ setAdd c.topics topic
          rw [mem_setAdd]
          exact Or.inr h
      · rintro ⟨e, he, hte⟩
        rcases mem_mapSet he with h1 | h1
        · rw [h1] at hte
          have : tt ∈ setAdd c.topics topic := hte
          rw [mem_setAdd] at this
          rcases this with h2 | h2
          · exact Or.inl ((htp tt).mpr ⟨(cid, c), hmem, h2⟩)
          · exact Or.inr h2
        · exact Or.inl ((htp tt).mpr ⟨e, h1, hte⟩)

theorem unsubscribeTopic_inv {s : SSEState} {cid topic : String}
    (hinv : Inv s) : Inv (unsubscribeTopic s cid topic) := by
  obtain ⟨hid, hfr, hnd, htp⟩ := hinv
  cases hg : mapGet s.clients cid with
  | none => simpa [unsubscribeTopic, hg] using ⟨hid, hfr, hnd, htp⟩
  | some c =>
    have hmem := mapGet_some_mem hg
    have hid' : ∀ e ∈ (mapSet s.clients cid
        { c with topics := setRemove c.topics topic }), e.2.id = e.1 := by
      intro e he
      rcases mem_mapSet he with h1 | h1
      · rw [h1]
        exact hid (cid, c) hmem
      · exact hid _ h1
    have hstate : unsubscribeTopic s cid topic =
        { s with
          clients := (mapSet s.clients cid
            { c with topics := setRemove c.topics topic })
          subscriptions := mapDelete s.subscriptions (cid ++ ":" ++ topic)
          activeTopics :=
            if (mapSet s.clients cid
                { c with topics := setRemove c.topics topic }).any
                (fun e => ¬ e.2.id = cid ∧ topic ∈ e.2.topics) then
              s.activeTopics
            else
              setRemove s.activeTopics topic } := by
      simp only [unsubscribeTopic, hg]
    rw [hstate]
    refine ⟨hid', ?_, ?_, ?_⟩
    · intro e he
      rcases mem_mapSet he with h1 | h1
      · obtain ⟨j, hj, hje⟩ := hfr _ hmem
        exact ⟨j, hj, by rw [h1]; exact hje⟩
      · exact hfr _ h1
    · show ((mapSet s.clients cid
          { c with topics := setRemove c.topics topic }).map
          (fun e => e.1)).Nodup
      rw [keys_mapSet_of_get_some hg]
      exact hnd
    · intro tt
      by_cases hany : (mapSet s.clients cid
          { c with topics := setRemove c.topics topic }).any
          (fun e => ¬ e.2.id = cid ∧ topic ∈ e.2.topics) = true
      · rw [if_pos hany]
        by_cases htt : tt = topic
        · subst htt
          obtain ⟨e, he, hpe⟩ := List.any_eq_true.mp hany
          rw [decide_eq_true_eq] at hpe
          have hek : ¬ e.1 = cid := fun hh => hpe.1 ((hid' e he).trans hh)
          have heo : e ∈ s.clients := mem_of_mem_mapSet_ne he hek
          constructor
          · intro _
            exact ⟨e, he, hpe.2⟩
          · intro _
            exact (htp tt).mpr ⟨e, heo, hpe.2⟩
        · rw [htp tt]
          constructor
          · rintro ⟨e, he, hte⟩
            by_cases hek : e.1 = cid
            · have heq := entry_eq_of_nodup hnd he hek hg
              refine ⟨(cid, { c with topics := setRemove c.topics topic }),
                self_mem_mapSet _ _ _, ?_⟩
              show tt ∈ setRemove c.topics topic
              rw [mem_setRemove]
              exact ⟨by rw [heq] at hte; exact hte, htt⟩
            · exact ⟨e, mem_mapSet_of_ne he hek, hte⟩
          · rintro ⟨e, he, hte⟩
            rcases mem_mapSet he with h1 | h1
            · rw [h1] at hte
              have : tt ∈ setRemove c.topics topic := hte
              exact ⟨(cid, c), hmem, (mem_setRemove.mp this).1⟩
            · exact ⟨e, h1, hte⟩
      · rw [if_neg hany]
        have hnone : ∀ e ∈ (mapSet s.clients cid
            { c with topics := setRemove c.topics topic }),
            ¬ e.2.id = cid → topic ∉ e.2.topics := by
          intro e he hne hin
          exact hany (List.any_eq_true.mpr
            ⟨e, he, decide_eq_true_eq.mpr ⟨hne, hin⟩⟩)
        rw [mem_setRemove]
        by_cases htt : tt = topic
        · subst htt
          constructor
          · rintro ⟨_, hne⟩
            exact absurd rfl hne
          · rintro ⟨e, he, hte⟩
            exfalso
            rcases mem_mapSet_nodup hnd he with h1 | h1
            · rw [h1] at hte
              have h2 : tt ∈ setRemove c.topics tt := hte
              exact (mem_setRemove.mp h2).2 rfl
            · exact hnone e he
                (fun hh => h1.2 ((hid' e he).symm.trans hh)) hte
        · rw [htp tt]
          constructor
          · rintro ⟨⟨e, he, hte⟩, _⟩
            by_cases hek : e.1 = cid
            · have heq := entry_eq_of_nodup hnd he hek hg
              refine ⟨(cid, { c with topics := setRemove c.topics topic }),
                self_mem_mapSet _ _ _, ?_⟩
              show tt ∈ setRemove c.topics topic
              rw [mem_setRemove]
              exact ⟨by rw [heq] at hte; exact hte, htt⟩
            · exact ⟨e, mem_mapSet_of_ne he hek, hte⟩
          · rintro ⟨e, he, hte⟩
            refine ⟨?_, htt⟩
            rcases mem_mapSet he with h1 | h1
            · rw [h1] at hte
              have : tt ∈ setRemove c.topics topic := hte
              exact ⟨(cid, c), hmem, (mem_setRemove.mp this).1⟩
            · exact ⟨e, h1, hte⟩

theorem removeClient_inv {s : SSEState} {cid : String} (hinv : Inv s) :
    Inv (removeClient s cid) := by
  obtain ⟨hid, hfr, hnd, htp⟩ := hinv
  cases hg : mapGet s.clients cid with
  | none => simpa [removeClient, hg] using ⟨hid, hfr, hnd, htp⟩
  | some c =>
    have hmem := mapGet_some_mem hg
    have hstate : removeClient s cid =
        { s with
          clients := mapDelete s.clients cid
          subscriptions :=
            ((s.subscriptions.map (fun e => e.2)).filter
              (fun sub => sub.clientId = cid)).foldl
              (fun m sub => mapDelete m sub.topic) s.subscriptions
          activeTopics := c.topics.foldl
            (fun acc topic =>
              if s.clients.any
                  (fun e => ¬ e.2.id = cid ∧ topic ∈ e.2.topics) then
                acc
              else
                setRemove acc topic)
            s.activeTopics } := by
      simp [removeClient, hg]
    rw [hstate]
    refine ⟨?_, ?_, ?_, ?_⟩
    · intro e he
      exact hid _ (mem_mapDelete.mp he).1
    · intro e he
      exact hfr _ (mem_mapDelete.mp he).1
    · show ((mapDelete s.clients cid).map (fun e => e.1)).Nodup
      exact nodup_keys_mapDelete hnd
    · intro tt
      show tt ∈ c.topics.foldl _ s.activeTopics ↔ _
      rw [mem_foldl_cond_setRemove]
      constructor
      · rintro ⟨h1, h2⟩
        obtain ⟨e, he, hte⟩ := (htp tt).mp h1
        by_cases hek : e.1 = cid
        · have heq := entry_eq_of_nodup hnd he hek hg
          have htc : tt ∈ c.topics := by
            rw [heq] at hte
            exact hte
          obtain ⟨e2, he2, hpe⟩ := List.any_eq_true.mp (h2 htc)
          rw [decide_eq_true_eq] at hpe
          have hek2 : ¬ e2.1 = cid :=
            fun hh => hpe.1 ((hid e2 he2).trans hh)
          exact ⟨e2, mem_mapDelete.mpr ⟨he2, hek2⟩, hpe.2⟩
        · exact ⟨e, mem_mapDelete.mpr ⟨he, hek⟩, hte⟩
      · rintro ⟨e, he, hte⟩
        have h3 := mem_mapDelete.mp he
        refine ⟨(htp tt).mpr ⟨e, h3.1, hte⟩, fun htc => ?_⟩
        exact List.any_eq_true.mpr ⟨e, h3.1, decide_eq_true_eq.mpr
          ⟨fun hh => h3.2 ((hid e h3.1).symm.trans hh), hte⟩⟩

theorem setSubscriptionFilter_inv {s : SSEState} {key : String}
    {f : SSEEvent → Bool} (hinv : Inv s) :
    Inv (setSubscriptionFilter s key f) := by
  obtain ⟨hid, hfr, hnd, htp⟩ := hinv
  cases hg : mapGet s.subscriptions key with
  | none => simpa [setSubscriptionFilter, hg] using ⟨hid, hfr, hnd, htp⟩
  | some sub =>
    have hstate : setSubscriptionFilter s key f =
        { s with subscriptions := (mapSet s.subscriptions key
            { sub with filter := some f }) } := by
      simp [setSubscriptionFilter, hg]
    rw [hstate]
    exact ⟨hid, hfr, hnd, htp⟩

theorem setSubscriptionTransform_inv {s : SSEState} {key : String}
    {g : SSEEvent → SSEEvent} (hinv : Inv s) :
    Inv (setSubscriptionTransform s key g) := by
  obtain ⟨hid, hfr, hnd, htp⟩ := hinv
  cases hg : mapGet s.subscriptions key with
  | none => simpa [setSubscriptionTransform, hg] using ⟨hid, hfr, hnd, htp⟩
  | some sub =>
    have hstate : setSubscriptionTransform s key g =
        { s with subscriptions := (mapSet s.subscriptions key
            { sub with transform := some g }) } := by
      simp [setSubscriptionTransform, hg]
    rw [hstate]
    exact ⟨hid, hfr, hnd, htp⟩

theorem mapSet_entry_inv {s : SSEState} {k : String} {c c2 : SSEClient}
    (hinv : Inv s) (hg : mapGet s.clients k = some c)
    (hcid : c2.id = c.id) (htc : c2.topics = c.topics) :
    Inv { s with clients := (mapSet s.clients k c2) } := by
  obtain ⟨hid, hfr, hnd, htp⟩ := hinv
  have hmem := mapGet_some_mem hg
  refine ⟨?_, ?_, ?_, ?_⟩
  · intro e he
    rcases mem_mapSet he with h1 | h1
    · rw [h1]
      exact hcid.trans (hid (k, c) hmem)
    · exact hid _ h1
  · intro e he
    rcases mem_mapSet he with h1 | h1
    · obtain ⟨j, hj, hje⟩ := hfr (k, c) hmem
      exact ⟨j, hj, by rw [h1]; exact hje⟩
    · exact hfr _ h1
  · show ((mapSet s.clients k c2).map (fun e => e.1)).Nodup
    exact nodup_keys_mapSet hnd
  · intro tt
    constructor
    · intro h1
      obtain ⟨e, he, hte⟩ := (htp tt).mp h1
      by_cases hek : e.1 = k
      · have heq := entry_eq_of_nodup hnd he hek hg
        refine ⟨(k, c2), self_mem_mapSet _ _ _, ?_⟩
        show tt ∈ c2.topics
        rw [htc]
        rw [heq] at hte
        exact hte
      · exact ⟨e, mem_mapSet_of_ne he hek, hte⟩
    · rintro ⟨e, he, hte⟩
      rcases mem_mapSet he with h1 | h1
      · rw [h1] at hte
        have h2 : tt ∈ c2.topics := hte
        rw [htc] at h2
        exact (htp tt).mpr ⟨(k, c), hmem, h2⟩
      · exact (htp tt).mpr ⟨e, h1, hte⟩

theorem broadcastVisit_inv {cfg : SSEConfig} {fe : SSEEvent} {now : String}
    {s : SSEState} (hinv : Inv s) (k : String) :
    Inv (broadcastVisit cfg fe now s k).1 := by
  rcases broadcastVisit_out cfg fe now s k with h | ⟨c, p, hg, h, hse, hc⟩ |
    ⟨c, hg, h⟩
  · rw [h]
    exact hinv
  · rw [h]
    have hshape := sendEvent_ok_shape hse
    exact mapSet_entry_inv hinv hg hshape.1 hshape.2.1
  · rw [h]
    exact removeClient_inv hinv

theorem broadcastLoop_inv {cfg : SSEConfig} {fe : SSEEvent} {now : String}
    {ks : List String} {s : SSEState} (hinv : Inv s) :
    Inv (broadcastLoop cfg fe now ks s).1 := by
  induction ks generalizing s with
  | nil => exact hinv
  | cons k t ih =>
    rw [broadcastLoop_cons]
    exact ih (broadcastVisit_inv hinv k)

theorem broadcast_inv {cfg : SSEConfig} {s : SSEState} {event : SSEEvent}
    {now : String} (hinv : Inv s) :
    Inv (broadcast cfg s event now).state := by
  by_cases hen : cfg.enabled = false
  · simpa [broadcast, hen] using hinv
  · have hen2 : cfg.enabled = true := by
      simpa using hen
    rw [broadcast_eq_loop hen2]
    exact broadcastLoop_inv hinv

theorem sendToClient_inv {cfg : SSEConfig} {s : SSEState} {cid : String}
    {event : SSEEvent} {now : String} (hinv : Inv s) :
    Inv (sendToClient cfg s cid event now).1 := by
  by_cases hen : cfg.enabled = false
  · simpa [sendToClient, hen] using hinv
  · cases hg : mapGet s.clients cid with
    | none => simpa [sendToClient, hen, hg] using hinv
    | some client =>
      cases hse : sendEvent cfg client (finalizeEvent event now) now with
      | ok p =>
        obtain ⟨c', ws⟩ := p
        have hstate : (sendToClient cfg s cid event now).1 =
            { s with clients := (mapSet s.clients cid
              { c' with lastEventAt := now }) } := by
          simp [sendToClient, hen, hg, hse]
        rw [hstate]
        have hshape := sendEvent_ok_shape hse
        exact mapSet_entry_inv hinv hg hshape.1 hshape.2.1
      | error e =>
        have hstate : (sendToClient cfg s cid event now).1 =
            removeClient s cid := by
          simp [sendToClient, hen, hg, hse]
        rw [hstate]
        exact removeClient_inv hinv

theorem heartbeatVisit_inv {cfg : SSEConfig} {now : String} {s : SSEState}
    (hinv : Inv s) (k : String) : Inv (heartbeatVisit cfg now s k).1 := by
  cases hg : mapGet s.clients k with
  | none => simpa [heartbeatVisit, hg] using hinv
  | some client =>
    cases hse : sendEvent cfg client (heartbeatEvent now) now with
    | ok p =>
      obtain ⟨c', ws⟩ := p
      have hstate : (heartbeatVisit cfg now s k).1 =
          { s with clients := (mapSet s.clients k
            { c' with lastHeartbeatAt := now }) } := by
        simp [heartbeatVisit, hg, hse]
      rw [hstate]
      have hshape := sendEvent_ok_shape hse
      exact mapSet_entry_inv hinv hg hshape.1 hshape.2.1
    | error e =>
      have hstate : (heartbeatVisit cfg now s k).1 =
          removeClient s client.id := by
        simp [heartbeatVisit, hg, hse]
      rw [hstate]
      exact removeClient_inv hinv

theorem heartbeatLoop_inv {cfg : SSEConfig} {now : String}
    {ks : List String} {s : SSEState} (hinv : Inv s) :
    Inv (heartbeatLoop cfg now ks s).1 := by
  induction ks generalizing s with
  | nil => exact hinv
  | cons k t ih =>
    show Inv (heartbeatLoop cfg now t (heartbeatVisit cfg now s k).1).1
    exact ih (heartbeatVisit_inv hinv k)

theorem subscribe_inv {s : SSEState} {cid : String} {topics : List String}
    {now : String} (hinv : Inv s) : Inv (subscribe s cid topics now) := by
  unfold subscribe
  cases hg : mapGet s.clients cid with
  | none => exact hinv
  | some c =>
    clear hg
    induction topics generalizing s with
    | nil => exact hinv
    | cons t ts ih =>
      rw [List.foldl_cons]
      exact ih (subscribeTopic_inv hinv)

theorem unsubscribe_inv {s : SSEState} {cid : String} {topics : List String}
    (hinv : Inv s) : Inv (unsubscribe s cid topics) := by
  unfold unsubscribe
  cases hg : mapGet s.clients cid with
  | none => exact hinv
  | some c =>
    clear hg
    induction topics generalizing s with
    | nil => exact hinv
    | cons t ts ih =>
      rw [List.foldl_cons]
      exact ih (unsubscribeTopic_inv hinv)

theorem applyOp_inv {cfg : SSEConfig} {s : SSEState} (hinv : Inv s)
    (op : SSEOp) : Inv (applyOp cfg s op) := by
  cases op with
  | opAddClient r topics now => exact addClient_inv hinv
  | opSubscribe cid ts now => exact subscribe_inv hinv
  | opUnsubscribe cid ts => exact unsubscribe_inv hinv
  | opRemoveClient cid => exact removeClient_inv hinv
  | opSetFilter key f => exact setSubscriptionFilter_inv hinv
  | opSetTransform key g => exact setSubscriptionTransform_inv hinv
  | opBroadcast ev now => exact broadcast_inv hinv
  | opSendToClient cid ev now => exact sendToClient_inv hinv
  | opHeartbeat now => exact heartbeatLoop_inv hinv

theorem initState_inv : Inv initState := by
  refine ⟨?_, ?_, ?_, ?_⟩
  · intro e he
    cases he
  · intro e he
    cases he
  · exact List.nodup_nil
  · intro t
    constructor
    · intro h
      cases h
    · rintro ⟨e, he, _⟩
      cases he

theorem runOps_inv (cfg : SSEConfig) (ops : List SSEOp) :
    Inv (runOps cfg ops) := by
  have key : ∀ (l : List SSEOp) (s : SSEState), SSEService.Inv s →
      SSEService.Inv (l.foldl (applyOp cfg) s) := by
    intro l
    induction l with
    | nil => exact fun s h => h
    | cons op t ih =>
      intro s h
      rw [List.foldl_cons]
      exact ih _ (applyOp_inv h op)
  exact key ops initState initState_inv

theorem mkClientId_no_colon (n : Nat) : ':' ∉ (mkClientId n).data := by
  intro h
  rw [show (mkClientId n).data =
      "client_".data ++ List.replicate n 'x' from String.data_append _ _] at h
  rcases List.mem_append.mp h with h1 | h1
  · simp at h1
  · exact absurd (List.eq_of_mem_replicate h1) (by decide)

theorem append_colon_inj {l1 l2 r1 r2 : List Char} (h1 : ':' ∉ l1)
    (h2 : ':' ∉ l2) (h : l1 ++ ':' :: r1 = l2 ++ ':' :: r2) :
    l1 = l2 ∧ r1 = r2 := by
  induction l1 generalizing l2 with
  | nil =>
    cases l2 with
    | nil =>
      simp only [List.nil_append] at h
      injection h with _ htl
      exact ⟨rfl, htl⟩
    | cons c t =>
      simp only [List.nil_append, List.cons_append] at h
      injection h with hc _
      exact absurd (hc ▸ List.mem_cons_self c t) (hc ▸ h2)
  | cons c t ih =>
    cases l2 with
    | nil =>
      simp only [List.nil_append, List.cons_append] at h
      injection h with hc _
      exact absurd (List.mem_cons_self c t) (hc ▸ h1)
    | cons c2 t2 =>
      simp only [List.cons_append] at h
      injection h with hc htl
      have ht1 : ':' ∉ t := fun hm => h1 (List.mem_cons_of_mem _ hm)
      have ht2 : ':' ∉ t2 := fun hm => h2 (List.mem_cons_of_mem _ hm)
      obtain ⟨ha, hb⟩ := ih ht1 ht2 htl
      exact ⟨by rw [hc, ha], hb⟩

theorem subKey_inj {i1 i2 t1 t2 : String} (h1 : ':' ∉ i1.data)
    (h2 : ':' ∉ i2.data) (h : i1 ++ ":" ++ t1 = i2 ++ ":" ++ t2) :
    i1 = i2 ∧ t1 = t2 := by
  have hd := congrArg String.data h
  rw [String.data_append, String.data_append, String.data_append,
    String.data_append] at hd
  have hd2 : i1.data ++ ':' :: t1.data = i2.data ++ ':' :: t2.data := by
    simpa using hd
  obtain ⟨ha, hb⟩ := append_colon_inj h1 h2 hd2
  exact ⟨String.ext ha, String.ext hb⟩

theorem str_append_left_cancel {a b c : String} (h : a ++ b = a ++ c) :
    b = c := by
  have hd := congrArg String.data h
  rw [String.data_append, String.data_append] at hd
  exact String.ext (List.append_cancel_left hd)

theorem registered_no_colon {s : SSEState} (hfr : Fresh s) {cid : String}
    {c : SSEClient} (hg : mapGet s.clients cid = some c) :
    ':' ∉ cid.data := by
  obtain ⟨j, hj, hje⟩ := hfr _ (mapGet_some_mem hg)
  rw [show cid = mkClientId j from hje]
  exact mkClientId_no_colon j

theorem clients_no_colon {s : SSEState} (hfr : Fresh s) :
    ∀ e ∈ s.clients, ':' ∉ (e.1 : String).data := by
  intro e he
  obtain ⟨j, hj, hje⟩ := hfr e he
  rw [hje]
  exact mkClientId_no_colon j

theorem addClient_subsinv {cfg : SSEConfig} {s : SSEState} {r : SSEResponse}
    {now : String} (hinv : Inv s) (hsi : SubsInv s) :
    SubsInv (addClient cfg s r [] now).state := by
  obtain ⟨hid, hfr, hnd, htp⟩ := hinv
  by_cases hen : cfg.enabled = false
  · simpa [addClient, hen] using hsi
  · by_cases hcap : cfg.maxClients ≤ s.clients.length
    · simpa [addClient, hen, hcap] using hsi
    · have hstate : (addClient cfg s r [] now).state =
          { s with
            clients := (mapSet s.clients (mkClientId s.nextId)
              { id := mkClientId s.nextId
                response := r
                topics := []
                connectedAt := now
                lastEventId := none
                lastEventAt := now
                lastHeartbeatAt := now })
            nextId := s.nextId + 1 } := by
        by_cases hrf : r.failing = true <;> simp [addClient, hen, hcap, hrf]
      rw [hstate]
      constructor
      · intro e he
        obtain ⟨hkey, c, hg, htc⟩ := hsi.1 e he
        refine ⟨hkey, c, ?_, htc⟩
        show mapGet (mapSet s.clients (mkClientId s.nextId) _) e.2.clientId =
          some c
        rw [mapGet_mapSet, if_neg ?_]
        · exact hg
        · intro hh
          obtain ⟨j, hj, hje⟩ := hfr _ (mapGet_some_mem hg)
          exact absurd (mkClientId_inj (hje.symm.trans hh))
            (Nat.ne_of_lt hj)
      · intro e he t htmem
        rcases mem_mapSet he with h1 | h1
        · rw [h1] at htmem
          cases htmem
        · exact hsi.2 e h1 t htmem

theorem subscribeTopic_subsinv {s : SSEState} {cid now topic : String}
    (hinv : Inv s) (hsi : SubsInv s) :
    SubsInv (subscribeTopic s cid now topic) := by
  obtain ⟨hid, hfr, hnd, htp⟩ := hinv
  cases hg : mapGet s.clients cid with
  | none => simpa [subscribeTopic, hg] using hsi
  | some c =>
    have hmem := mapGet_some_mem hg
    have hcidnc : ':' ∉ cid.data := registered_no_colon hfr hg
    have hnc := clients_no_colon hfr
    have hstate : subscribeTopic s cid now topic =
        { s with
          clients := (mapSet s.clients cid
            { c with topics := setAdd c.topics topic })
          activeTopics := setAdd s.activeTopics topic
          subscriptions := (mapSet s.subscriptions (cid ++ ":" ++ topic)
            { topic := topic
              clientId := cid
              filter := none
              transform := none
              createdAt := now
              updatedAt := now }) } := by
      simp [subscribeTopic, hg]
    rw [hstate]
    constructor
    · intro e he
      rcases mem_mapSet he with h1 | h1
      · rw [h1]
        refine ⟨rfl, { c with topics := setAdd c.topics topic }, ?_, ?_⟩
        · show mapGet (mapSet s.clients cid _) cid = some _
          rw [mapGet_mapSet, if_pos rfl]
        · show topic ∈ setAdd c.topics topic
          rw [mem_setAdd]
          exact Or.inr rfl
      · obtain ⟨hkey, cx, hgx, htx⟩ := hsi.1 e h1
        by_cases hcc : e.2.clientId = cid
        · refine ⟨hkey, { c with topics := setAdd c.topics topic }, ?_, ?_⟩
          · show mapGet (mapSet s.clients cid _) e.2.clientId = some _
            rw [hcc, mapGet_mapSet, if_pos rfl]
          · show e.2.topic ∈ setAdd c.topics topic
            rw [mem_setAdd]
            left
            rw [hcc] at hgx
            have hcx : cx = c := Option.some.inj (hgx.symm.trans hg)
            rw [← hcx]
            exact htx
        · refine ⟨hkey, cx, ?_, htx⟩
          show mapGet (mapSet s.clients cid _) e.2.clientId = some cx
          rw [mapGet_mapSet, if_neg hcc]
          exact hgx
    · intro e he t htmem
      rcases mem_mapSet he with h1 | h1
      · rw [h1] at htmem ⊢
        have htm : t ∈ setAdd c.topics topic := htmem
        rw [mem_setAdd] at htm
        by_cases hkey : cid ++ ":" ++ t = cid ++ ":" ++ topic
        · have hteq : t = topic := str_append_left_cancel hkey
          refine ⟨{ topic := topic, clientId := cid, filter := none,
                      transform := none, createdAt := now,
                      updatedAt := now },
            ?_, rfl, hteq.symm⟩
          show mapGet (mapSet s.subscriptions (cid ++ ":" ++ topic) _)
            ((cid, { c with topics := setAdd c.topics topic }).1 ++ ":" ++ t) =
            some _
          rw [mapGet_mapSet]
          rw [if_pos ?_]
          exact hkey
        · rcases htm with htm | htm
          · obtain ⟨sub, hgs, hsc, hst⟩ := hsi.2 (cid, c) hmem t htm
            refine ⟨sub, ?_, hsc, hst⟩
            show mapGet (mapSet s.subscriptions (cid ++ ":" ++ topic) _)
              ((cid, { c with topics := setAdd c.topics topic }).1 ++ ":" ++
                t) = some sub
            rw [mapGet_mapSet, if_neg hkey]
            exact hgs
          · exact absurd (by rw [htm]) hkey
      · by_cases hkey : e.1 ++ ":" ++ t = cid ++ ":" ++ topic
        · obtain ⟨heid, hteq⟩ := subKey_inj (hnc e h1) hcidnc hkey
          refine ⟨{ topic := topic, clientId := cid, filter := none,
                      transform := none, createdAt := now,
                      updatedAt := now },
            ?_, heid.symm, hteq.symm⟩
          show mapGet (mapSet s.subscriptions (cid ++ ":" ++ topic) _)
            (e.1 ++ ":" ++ t) = some _
          rw [mapGet_mapSet, if_pos hkey]
        · obtain ⟨sub, hgs, hsc, hst⟩ := hsi.2 e h1 t htmem
          refine ⟨sub, ?_, hsc, hst⟩
          show mapGet (mapSet s.subscriptions (cid ++ ":" ++ topic) _)
            (e.1 ++ ":" ++ t) = some sub
          rw [mapGet_mapSet, if_neg hkey]
          exact hgs

theorem unsubscribeTopic_subsinv {s : SSEState} {cid topic : String}
    (hinv : Inv s) (hsi : SubsInv s) :
    SubsInv (unsubscribeTopic s cid topic) := by
  obtain ⟨hid, hfr, hnd, htp⟩ := hinv
  cases hg : mapGet s.clients cid with
  | none => simpa [unsubscribeTopic, hg] using hsi
  | some c =>
    have hmem := mapGet_some_mem hg
    have hcidnc : ':' ∉ cid.data := registered_no_colon hfr hg
    have hnc := clients_no_colon hfr
    have hsub : (unsubscribeTopic s cid topic).subscriptions =
        mapDelete s.subscriptions (cid ++ ":" ++ topic) := by
      simp [unsubscribeTopic, hg]
    have hcl : (unsubscribeTopic s cid topic).clients =
        mapSet s.clients cid
          { c with topics := setRemove c.topics topic } := by
      simp [unsubscribeTopic, hg]
    constructor
    · intro e he
      rw [hsub] at he
      rw [hcl]
      obtain ⟨hee, hne⟩ := mem_mapDelete.mp he
      obtain ⟨hkey, cx, hgx, htx⟩ := hsi.1 e hee
      by_cases hcc : e.2.clientId = cid
      · have hcx : cx = c := by
          rw [hcc] at hgx
          exact Option.some.inj (hgx.symm.trans hg)
        refine ⟨hkey, { c with topics := setRemove c.topics topic },
          ?_, ?_⟩
        · rw [hcc, mapGet_mapSet, if_pos rfl]
        · show e.2.topic ∈ setRemove c.topics topic
          rw [mem_setRemove]
          refine ⟨hcx ▸ htx, fun hteq => hne ?_⟩
          rw [hkey, hcc, hteq]
      · refine ⟨hkey, cx, ?_, htx⟩
        rw [mapGet_mapSet, if_neg hcc]
        exact hgx
    · intro e he t htmem
      rw [hcl] at he
      rw [hsub]
      rcases mem_mapSet_nodup hnd he with h1 | ⟨h1, hne1⟩
      · rw [h1] at htmem ⊢
        have htm := mem_setRemove.mp htmem
        obtain ⟨sub, hgs, hsc, hst⟩ := hsi.2 (cid, c) hmem t htm.1
        refine ⟨sub, ?_, hsc, hst⟩
        rw [mapGet_mapDelete, if_neg ?_]
        · exact hgs
        · intro hk
          exact htm.2 (str_append_left_cancel hk)
      · obtain ⟨sub, hgs, hsc, hst⟩ := hsi.2 e h1 t htmem
        refine ⟨sub, ?_, hsc, hst⟩
        rw [mapGet_mapDelete, if_neg ?_]
        · exact hgs
        · intro hk
          exact hne1 (subKey_inj (hnc e h1) hcidnc hk).1

theorem setSubscriptionFilter_subsinv {s : SSEState} {key : String}
    {f : SSEEvent → Bool} (hsi : SubsInv s) :
    SubsInv (setSubscriptionFilter s key f) := by
  cases hgk : mapGet s.subscriptions key with
  | none => simpa [setSubscriptionFilter, hgk] using hsi
  | some sub =>
    have hksub := hsi.1 (key, sub) (mapGet_some_mem hgk)
    have hsubs : (setSubscriptionFilter s key f).subscriptions =
        mapSet s.subscriptions key { sub with filter := some f } := by
      simp [setSubscriptionFilter, hgk]
    have hcl : (setSubscriptionFilter s key f).clients = s.clients := by
      simp [setSubscriptionFilter, hgk]
    constructor
    · intro e he
      rw [hsubs] at he
      rw [hcl]
      rcases mem_mapSet he with h1 | h1
      · rw [h1]
        exact ⟨hksub.1, hksub.2⟩
      · exact hsi.1 e h1
    · intro e he t htmem
      rw [hcl] at he
      rw [hsubs]
      obtain ⟨sub0, hgs, hsc, hst⟩ := hsi.2 e he t htmem
      by_cases hk : e.1 ++ ":" ++ t = key
      · have hs0 : sub0 = sub := by
          rw [hk] at hgs
          exact Option.some.inj (hgs.symm.trans hgk)
        refine ⟨{ sub with filter := some f }, ?_, ?_, ?_⟩
        · rw [mapGet_mapSet, if_pos hk]
        · show sub.clientId = e.1
          rw [← hs0]
          exact hsc
        · show sub.topic = t
          rw [← hs0]
          exact hst
      · refine ⟨sub0, ?_, hsc, hst⟩
        rw [mapGet_mapSet, if_neg hk]
        exact hgs

theorem setSubscriptionTransform_subsinv {s : SSEState} {key : String}
    {g : SSEEvent → SSEEvent} (hsi : SubsInv s) :
    SubsInv (setSubscriptionTransform s key g) := by
  cases hgk : mapGet s.subscriptions key with
  | none => simpa [setSubscriptionTransform, hgk] using hsi
  | some sub =>
    have hksub := hsi.1 (key, sub) (mapGet_some_mem hgk)
    have hsubs : (setSubscriptionTransform s key g).subscriptions =
        mapSet s.subscriptions key { sub with transform := some g } := by
      simp [setSubscriptionTransform, hgk]
    have hcl : (setSubscriptionTransform s key g).clients = s.clients := by
      simp [setSubscriptionTransform, hgk]
    constructor
    · intro e he
      rw [hsubs] at he
      rw [hcl]
      rcases mem_mapSet he with h1 | h1
      · rw [h1]
        exact ⟨hksub.1, hksub.2⟩
      · exact hsi.1 e h1
    · intro e he t htmem
      rw [hcl] at he
      rw [hsubs]
      obtain ⟨sub0, hgs, hsc, hst⟩ := hsi.2 e he t htmem
      by_cases hk : e.1 ++ ":" ++ t = key
      · have hs0 : sub0 = sub := by
          rw [hk] at hgs
          exact Option.some.inj (hgs.symm.trans hgk)
        refine ⟨{ sub with transform := some g }, ?_, ?_, ?_⟩
        · rw [mapGet_mapSet, if_pos hk]
        · show sub.clientId = e.1
          rw [← hs0]
          exact hsc
        · show sub.topic = t
          rw [← hs0]
          exact hst
      · refine ⟨sub0, ?_, hsc, hst⟩
        rw [mapGet_mapSet, if_neg hk]
        exact hgs

theorem initState_subsinv : SubsInv initState := by
  constructor
  · intro e he
    cases he
  · intro e he
    cases he

theorem subscribe_both {s : SSEState} {cid now : String}
    {ts : List String} (h1 : Inv s) (h2 : SubsInv s) :
    Inv (subscribe s cid ts now) ∧ SubsInv (subscribe s cid ts now) := by
  cases hg : mapGet s.clients cid with
  | none =>
    rw [subscribe, hg]
    exact ⟨h1, h2⟩
  | some c =>
    rw [subscribe, hg]
    show Inv (ts.foldl (fun st t => subscribeTopic st cid now t) s) ∧ _
    clear hg
    induction ts generalizing s with
    | nil => exact ⟨h1, h2⟩
    | cons t ts ih =>
      rw [List.foldl_cons]
      exact ih (subscribeTopic_inv h1) (subscribeTopic_subsinv h1 h2)

theorem unsubscribe_both {s : SSEState} {cid : String}
    {ts : List String} (h1 : Inv s) (h2 : SubsInv s) :
    Inv (unsubscribe s cid ts) ∧ SubsInv (unsubscribe s cid ts) := by
  cases hg : mapGet s.clients cid with
  | none =>
    rw [unsubscribe, hg]
    exact ⟨h1, h2⟩
  | some c =>
    rw [unsubscribe, hg]
    show Inv (ts.foldl (fun st t => unsubscribeTopic st cid t) s) ∧ _
    clear hg
    induction ts generalizing s with
    | nil => exact ⟨h1, h2⟩
    | cons t ts ih =>
      rw [List.foldl_cons]
      exact ih (unsubscribeTopic_inv h1) (unsubscribeTopic_subsinv h1 h2)

theorem applyOp_core_both {cfg : SSEConfig} {s : SSEState} {op : SSEOp}
    (hop : coreOp op = true) (h1 : Inv s) (h2 : SubsInv s) :
    Inv (applyOp cfg s op) ∧ SubsInv (applyOp cfg s op) := by
  cases op with
  | opAddClient r topics now =>
    have ht : topics = [] := List.isEmpty_iff.mp (by simpa [coreOp] using hop)
    subst ht
    exact ⟨addClient_inv ⟨h1.1, h1.2.1, h1.2.2.1, h1.2.2.2⟩,
      addClient_subsinv h1 h2⟩
  | opSubscribe cid ts now => exact subscribe_both h1 h2
  | opUnsubscribe cid ts => exact unsubscribe_both h1 h2
  | opSetFilter key f =>
    exact ⟨setSubscriptionFilter_inv h1, setSubscriptionFilter_subsinv h2⟩
  | opSetTransform key g =>
    exact ⟨setSubscriptionTransform_inv h1,
      setSubscriptionTransform_subsinv h2⟩
  | opRemoveClient cid => simp [coreOp] at hop
  | opBroadcast ev now => simp [coreOp] at hop
  | opSendToClient cid ev now => simp [coreOp] at hop
  | opHeartbeat now => simp [coreOp] at hop

theorem runOps_core_subsinv (cfg : SSEConfig) (ops : List SSEOp)
    (hops : ∀ op ∈ ops, coreOp op = true) :
    SubsInv (runOps cfg ops) := by
  have key : ∀ (l : List SSEOp) (s : SSEState),
      (∀ op ∈ l, coreOp op = true) → SSEService.Inv s → SubsInv s →
      SSEService.Inv (l.foldl (applyOp cfg) s) ∧
        SubsInv (l.foldl (applyOp cfg) s) := by
    intro l
    induction l with
    | nil => exact fun s _ h1 h2 => ⟨h1, h2⟩
    | cons op t ih =>
      intro s hl h1 h2
      rw [List.foldl_cons]
      exact ih _ (fun o ho => hl o (List.mem_cons_of_mem _ ho))
        (applyOp_core_both (hl op (List.mem_cons_self _ _)) h1 h2).1
        (applyOp_core_both (hl op (List.mem_cons_self _ _)) h1 h2).2
  exact (key ops initState hops initState_inv initState_subsinv).2

end InvariantLemmas

section ClaimTheorems

open SSEService Scenarios

/-- C2, counterexample: after `addClient` with initial topics `["news"]`,
the topic is in the client's topic set (so `subscribersOf("news")`
contains the client and `topicsOf(client)` contains `"news"`), yet the
subscription map holds no record at all — the claimed
record-iff-both-edges invariant fails at a state reachable by a single
completed operation. -/
theorem subscription_iff_membership_cex :
    (mapGet initTopics.clients idA).map (fun c => c.topics) =
      some ["news"] ∧
    initTopics.subscriptions.map (fun e => e.1) = [] := by
  exact ⟨by decide, by decide⟩

/-- C5: evaluation of `removeClient` at the failing input — a client
subscribed to `"news"` via `subscribe` and then removed.  The registry
entry is gone and the call is idempotent, but the subscription record
stored under `` `client_:news` `` survives, because line 152 deletes under
the key `sub.topic` (`"news"`) instead of the composite key the record
was stored under: the claim (and the code's own comment, "Remove client's
subscriptions") says no record of the client remains. -/
theorem removeClient_subscription_leak :
    (removeClient subbed idA).clients.map (fun e => e.1) = [] ∧
    (removeClient subbed idA).subscriptions.map (fun e => e.1) =
      [idA ++ ":news"] ∧
    removeClient (removeClient subbed idA) idA = removeClient subbed idA := by
  exact ⟨by decide, by decide, rfl⟩

/-- C7, counterexample: the `SSEService` heartbeat is not the claimed
two-phase mark-then-check sweep.  A client that never responds to any
probe (SSE transports carry no responses and the service tracks no alive
flag) is still registered after two full sweeps in which it was probed
each time — the claim says such a client is evicted and gone from the
client list. -/
theorem sse_heartbeat_never_evicts_cex :
    ((heartbeatSweep cfgS (heartbeatSweep cfgS subbed "h1").1 "h2").1.clients.map
      (fun e => e.1)) = [idA] ∧
    (heartbeatSweep cfgS subbed "h1").2.map (fun w => w.1) = [idA] ∧
    (heartbeatSweep cfgS (heartbeatSweep cfgS subbed "h1").1 "h2").2.map
      (fun w => w.1) = [idA] := by
  exact ⟨by decide, by decide, by decide⟩

/-- C7 (corrected): the two-phase heartbeat holds for the
`WebSocketService` sweep.  In any socket map whose entries are keyed by
their ids, one sweep marks an alive client's flag false and sends it a
probe; a client whose flag is already false (no pong since the previous
sweep) is terminated and removed; and with no pong arriving at all, two
consecutive sweeps leave no client registered — time-to-detect is bounded
by two sweep periods. -/
theorem ws_heartbeat_two_phase (s : WebSocketService.WSState) (k : String)
    (c : WebSocketService.WSClient) (hid : WebSocketService.WSIdKey s)
    (hnd : (s.clients.map (fun e => e.1)).Nodup)
    (hmem : (k, c) ∈ s.clients) :
    (c.isAlive = true →
      mapGet (WebSocketService.wsHeartbeatSweep s).1.clients k =
        some { c with isAlive := false } ∧
      k ∈ (WebSocketService.wsHeartbeatSweep s).2) ∧
    (c.isAlive = false →
      mapGet (WebSocketService.wsHeartbeatSweep s).1.clients k = none) ∧
    (WebSocketService.wsHeartbeatSweep
      (WebSocketService.wsHeartbeatSweep s).1).1.clients = [] := by
  have hkeys : k ∈ s.clients.map (fun e => e.1) :=
    List.mem_map.mpr ⟨(k, c), hmem, rfl⟩
  obtain ⟨l1, l2, hsplit⟩ := List.append_of_mem hkeys
  have hnd' : (l1 ++ k :: l2).Nodup := hsplit ▸ hnd
  obtain ⟨hnd1, hnd2, hdisj⟩ := List.nodup_append.mp hnd'
  have hk1 : k ∉ l1 := fun hk => hdisj hk (List.mem_cons_self _ _)
  have hk2 : k ∉ l2 := (List.nodup_cons.mp hnd2).1
  have hget : mapGet s.clients k = some c := mapGet_of_mem_nodup hmem hnd
  have hcid : c.id = k := hid _ hmem
  have hsweep :
      WebSocketService.wsHeartbeatSweep s =
        WebSocketService.wsHeartbeatLoop (l1 ++ k :: l2) s := by
    unfold WebSocketService.wsHeartbeatSweep
    rw [hsplit]
  have hid1 := @wsLoop_idkey l1 s hid
  have hget1 : mapGet (WebSocketService.wsHeartbeatLoop l1 s).1.clients k =
      some c := (wsLoop_frame hid hk1).trans hget
  refine ⟨?_, ?_, ?_⟩
  · intro halive
    have hvisit :
        WebSocketService.wsHeartbeatVisit
            (WebSocketService.wsHeartbeatLoop l1 s).1 k =
          ({ clients := (mapSet
              (WebSocketService.wsHeartbeatLoop l1 s).1.clients k
              { c with isAlive := false }) }, [c.id]) := by
      unfold WebSocketService.wsHeartbeatVisit
      rw [hget1]
      simp [halive]
    have e1 : (WebSocketService.wsHeartbeatSweep s).1 =
        (WebSocketService.wsHeartbeatLoop l2
          (WebSocketService.wsHeartbeatVisit
            (WebSocketService.wsHeartbeatLoop l1 s).1 k).1).1 := by
      rw [hsweep, wsLoop_append, wsHeartbeatLoop_cons]
    have e2 : (WebSocketService.wsHeartbeatSweep s).2 =
        (WebSocketService.wsHeartbeatLoop l1 s).2 ++
          ((WebSocketService.wsHeartbeatVisit
              (WebSocketService.wsHeartbeatLoop l1 s).1 k).2 ++
            (WebSocketService.wsHeartbeatLoop l2
              (WebSocketService.wsHeartbeatVisit
                (WebSocketService.wsHeartbeatLoop l1 s).1 k).1).2) := by
      rw [hsweep, wsLoop_append, wsHeartbeatLoop_cons]
    have hidm : WebSocketService.WSIdKey
        ({ clients := (mapSet
          (WebSocketService.wsHeartbeatLoop l1 s).1.clients k
          { c with isAlive := false }) } : WebSocketService.WSState) := by
      intro e he
      rcases mem_mapSet he with h1 | h1
      · rw [h1]; exact hcid
      · exact hid1 _ h1
    constructor
    · rw [e1, hvisit]
      rw [wsLoop_frame hidm hk2]
      simp [mapGet_mapSet]
    · rw [e2, hvisit]
      simp [hcid]
  · intro hdead
    have hvisit :
        WebSocketService.wsHeartbeatVisit
            (WebSocketService.wsHeartbeatLoop l1 s).1 k =
          ({ clients := (mapDelete
              (WebSocketService.wsHeartbeatLoop l1 s).1.clients c.id) }, []) := by
      unfold WebSocketService.wsHeartbeatVisit
      rw [hget1]
      simp [hdead, hcid]
    have e1 : (WebSocketService.wsHeartbeatSweep s).1 =
        (WebSocketService.wsHeartbeatLoop l2
          (WebSocketService.wsHeartbeatVisit
            (WebSocketService.wsHeartbeatLoop l1 s).1 k).1).1 := by
      rw [hsweep, wsLoop_append, wsHeartbeatLoop_cons]
    have hidm : WebSocketService.WSIdKey
        ({ clients := (mapDelete
          (WebSocketService.wsHeartbeatLoop l1 s).1.clients c.id) } :
          WebSocketService.WSState) := by
      intro e he
      exact hid1 _ (mem_mapDelete.mp he).1
    rw [e1, hvisit]
    rw [wsLoop_frame hidm hk2]
    simp [hcid, mapGet_mapDelete]
  · have hfalse : ∀ e ∈ (WebSocketService.wsHeartbeatSweep s).1.clients,
        e.2.isAlive = false := by
      refine wsLoop_all_false hid hnd ?_
      intro e he
      exact Or.inl (List.mem_map.mpr ⟨e, he, rfl⟩)
    exact wsLoop_all_dead_gone (wsLoop_idkey hid) hfalse
      (fun e he => List.mem_map.mpr ⟨e, he, rfl⟩)

/-- C7, witness: the two-phase theorem applied to a concrete one-socket
state: the first sweep marks and probes, and two responseless sweeps
empty the registry. -/
theorem ws_heartbeat_two_phase_witness :
    (mapGet (WebSocketService.wsHeartbeatSweep wsOne).1.clients "sock1" =
      some { id := "sock1", isAlive := false } ∧
      "sock1" ∈ (WebSocketService.wsHeartbeatSweep wsOne).2) ∧
    (WebSocketService.wsHeartbeatSweep
      (WebSocketService.wsHeartbeatSweep wsOne).1).1.clients = [] := by
  have h := ws_heartbeat_two_phase wsOne "sock1" ⟨"sock1", true⟩
    (by intro e he
        rcases List.mem_cons.mp he with h1 | h1
        · rw [h1]
        · cases h1)
    (by decide) (by decide)
  exact ⟨h.1 rfl, h.2.2⟩

/-- C8, counterexample: in `PusherGateway.handleSubscribe` for a presence
channel with a user identity, the synthetic `user_joined` broadcast
(`MessagingService.handleUserJoin`) is performed strictly before the
subscription is tracked (`addClientSubscription`) and before the socket
joins the channel room (`client.join`) — not "only after the subscription
edge has been committed" as claimed. -/
theorem presence_join_before_commit_cex :
    List.indexOf (PusherGateway.handleUserJoin "presence-room" "alice")
        (PusherGateway.handleSubscribe {} "c1" "presence-room"
          (some "alice")).2 <
      List.indexOf
        (PusherGateway.GatewayAction.trackSubscription "c1" "presence-room")
        (PusherGateway.handleSubscribe {} "c1" "presence-room"
          (some "alice")).2 ∧
    List.indexOf (PusherGateway.handleUserJoin "presence-room" "alice")
        (PusherGateway.handleSubscribe {} "c1" "presence-room"
          (some "alice")).2 <
      List.indexOf
        (PusherGateway.GatewayAction.joinRoom "c1" "presence-room")
        (PusherGateway.handleSubscribe {} "c1" "presence-room"
          (some "alice")).2 := by
  exact ⟨by decide, by decide⟩

/-- C8 (corrected): on `subscribe` to a presence channel with a truthy
user identity, the gateway performs, in program order: authentication,
the `subscription_succeeded` emit, exactly one synthetic `user_joined`
broadcast, and only then the subscription tracking and the room join —
the join event is emitted before, not after, the subscription edge is
committed, and since `handleSubscribe` completes before the client can
publish, the join broadcast still precedes the client's own subsequent
messages under sequential execution. -/
theorem handleSubscribe_presence_trace (s : PusherGateway.GatewayState)
    (clientId channel u : String) (hu : ¬ u = "")
    (hp : strStartsWith channel "presence-" = true) :
    PusherGateway.handleSubscribe s clientId channel (some u) =
      (PusherGateway.addClientSubscription s clientId channel,
        [.authenticate clientId channel (some u),
          .emitToClient clientId "subscription_succeeded" channel,
          .publishMessage channel "user_joined"
            ("User " ++ u ++ " joined the channel") (some u),
          .trackSubscription clientId channel,
          .joinRoom clientId channel]) := by
  simp [PusherGateway.handleSubscribe, strTruthy, hu, hp,
    PusherGateway.handleUserJoin]

/-- C8, witness: the presence trace theorem at a concrete subscribe
call. -/
theorem handleSubscribe_presence_trace_witness :
    PusherGateway.handleSubscribe {} "c1" "presence-room" (some "alice") =
      (PusherGateway.addClientSubscription {} "c1" "presence-room",
        [.authenticate "c1" "presence-room" (some "alice"),
          .emitToClient "c1" "subscription_succeeded" "presence-room",
          .publishMessage "presence-room" "user_joined"
            "User alice joined the channel" (some "alice"),
          .trackSubscription "c1" "presence-room",
          .joinRoom "c1" "presence-room"]) :=
  handleSubscribe_presence_trace {} "c1" "presence-room" "alice"
    (by decide) (by decide)

/-- C9: when the service is enabled and the new client's transport is
healthy, `addClient` rejects (throws, registering nothing and leaving the
state unchanged) exactly when the registry has reached `maxClients`;
below capacity it registers the client under the freshly generated id
with its deduplicated initial topic set and `connectedAt = now`, and
returns that id. -/
theorem addClient_capacity (cfg : SSEConfig) (s : SSEState)
    (response : SSEResponse) (topics : List String) (now : String)
    (hen : cfg.enabled = true) (hok : response.failing = false) :
    (cfg.maxClients ≤ s.clients.length →
      addClient cfg s response topics now = ⟨s, .error (), []⟩) ∧
    (s.clients.length < cfg.maxClients →
      (addClient cfg s response topics now).ret =
        .ok (mkClientId s.nextId) ∧
      mapGet (addClient cfg s response topics now).state.clients
          (mkClientId s.nextId) =
        some { id := mkClientId s.nextId
               response := response
               topics := topics.foldl setAdd []
               connectedAt := now
               lastEventId := none
               lastEventAt := now
               lastHeartbeatAt := now }) := by
  constructor
  · intro h
    simp [addClient, hen, h]
  · intro h
    have h2 : ¬ cfg.maxClients ≤ s.clients.length := Nat.not_le.mpr h
    refine ⟨?_, ?_⟩ <;>
      simp [addClient, hen, h2, hok, mapGet_mapSet]

/-- C9, witness: at capacity 2 a third `addClient` is rejected with the
state unchanged; on an empty registry the call returns the generated
id. -/
theorem addClient_capacity_witness :
    addClient cfgS pairOk ⟨false⟩ [] "t9" = ⟨pairOk, .error (), []⟩ ∧
    (addClient cfgS initState ⟨false⟩ [] "t0").ret = .ok (mkClientId 0) := by
  constructor
  · exact (addClient_capacity cfgS pairOk ⟨false⟩ [] "t9" rfl rfl).1
      (by decide)
  · exact ((addClient_capacity cfgS initState ⟨false⟩ [] "t0" rfl rfl).2
      (by decide)).1

/-- C3, counterexample: broadcasting an event whose serialized payload
(12 bytes) exceeds the configured 10-byte limit does produce zero
transport writes, but it does not fail the whole call with a
`PayloadTooLarge` error and it does not leave the registry unchanged: the
per-recipient size check throws inside `sendEvent`, the `catch` in
`broadcast` treats it like a transport failure, and the subscribed
recipient is evicted from the registry. -/
theorem oversized_broadcast_evicts_cex :
    (broadcast cfgS subbed evBig "t2").writes = [] ∧
    subbed.clients.map (fun e => e.1) = [idA] ∧
    (broadcast cfgS subbed evBig "t2").state.clients.map (fun e => e.1) =
      [] ∧
    (broadcast cfgS subbed evBig "t2").sentCount = 0 := by
  exact ⟨by decide, by decide, by decide, by decide⟩

/-- C4, counterexample: `broadcast` does not return a count of successful
versus failed deliveries.  Its TypeScript return type is `void`; the only
count it maintains is the local `sentCount` of successes (used for a
debug log), and that count is identical (1) in a run with one failed,
evicting delivery (`pairSub`: client A broken, client B healthy) and in a
run with no failure at all (`singleRoom`) — so nothing the call returns
records A's failure. -/
theorem broadcast_returns_no_failure_count_cex :
    (broadcast cfgS pairSub evRoom "t2").sentCount =
      (broadcast cfgS singleRoom evRoom "t2").sentCount ∧
    pairSub.clients.length -
      (broadcast cfgS pairSub evRoom "t2").state.clients.length = 1 ∧
    singleRoom.clients.length -
      (broadcast cfgS singleRoom evRoom "t2").state.clients.length = 0 := by
  exact ⟨by decide, by decide, by decide⟩

/-- C1: under sequential execution with the service enabled, for a
topic-scoped broadcast every registered client receives exactly one
transport write of the (possibly per-subscription transformed) event when
it is subscribed to the event's topic and its subscription filter does
not reject the event; it receives no write when the filter rejects the
event or when it is not subscribed — no duplicate and no missing
delivery.  (Hypotheses: the client map is a well-formed `Map` — ids match
keys, no duplicate keys; no subscription key collides with a record's
topic, which holds for ordinary topic names; the client's transport is
healthy and its transformed payload passes the size limit.) -/
theorem broadcast_delivers_exactly_once {cfg : SSEConfig} {s : SSEState}
    {event : SSEEvent} {now t k : String} {c : SSEClient}
    (hen : cfg.enabled = true)
    (htop : strTruthy event.topic = some t)
    (hid : IdKey s) (hnd : KeysNodup s) (hsafe : SubsSafe s)
    (hmem : (k, c) ∈ s.clients)
    (hf : c.response.failing = false)
    (hsz : sizeOk cfg (xformEvent
      (subFor s c (finalizeEvent event now)) (finalizeEvent event now))) :
    (broadcast cfg s event now).writes.filter (fun w => w.1 = k) =
      if t ∈ c.topics then
        (if filterRejects (subFor s c (finalizeEvent event now))
            (finalizeEvent event now) = true then []
         else [(k, buildMessage (xformEvent
            (subFor s c (finalizeEvent event now))
            (finalizeEvent event now)))])
      else [] :=
  broadcast_writes_filter_key hen htop hid hnd hsafe hmem hf hsz

/-- C1, witness: the spec's filter scenario.  Client A is subscribed to
`"news"` with the filter `data == "high"`; broadcasting the low-priority
event produces no write on A's transport, broadcasting the high-priority
event produces exactly one write, carrying the event frame. -/
theorem broadcast_delivers_exactly_once_witness :
    (broadcast cfgS withFilter evLow "t2").writes.filter
        (fun w => w.1 = idA) = [] ∧
    (broadcast cfgS withFilter evHigh "t2").writes.filter
        (fun w => w.1 = idA) = [(idA, "data: high\n\n")] := by
  constructor
  · exact (@broadcast_delivers_exactly_once cfgS withFilter evLow "t2"
      "news" idA clientA
      rfl (by decide)
      (by unfold IdKey; decide) (by unfold KeysNodup; decide)
      (by unfold SubsSafe; decide) (by decide) (by decide)
      (by unfold sizeOk; decide)).trans (by decide)
  · exact (@broadcast_delivers_exactly_once cfgS withFilter evHigh "t2"
      "news" idA clientA
      rfl (by decide)
      (by unfold IdKey; decide) (by unfold KeysNodup; decide)
      (by unfold SubsSafe; decide) (by decide) (by decide)
      (by unfold sizeOk; decide)).trans (by decide)

/-- C10: a broadcast of an event with no (truthy) topic is delivered to
every registered client, and no subscription filter or transform is
consulted: every client receives exactly the frame of the untransformed
event, whatever filters or transforms its subscriptions carry (healthy
transports, payload within the size limit). -/
theorem global_broadcast_all_clients {cfg : SSEConfig} {s : SSEState}
    {event : SSEEvent} {now : String}
    (hen : cfg.enabled = true)
    (htop : strTruthy event.topic = none)
    (hgood : ∀ e ∈ s.clients, e.2.response.failing = false)
    (hsz : sizeOk cfg (finalizeEvent event now)) :
    (broadcast cfg s event now).writes =
      s.clients.map (fun e =>
        (e.1, buildMessage (finalizeEvent event now))) := by
  have htop' : strTruthy (finalizeEvent event now).topic = none := htop
  have hpre : ∀ x ∈ s.clients.map (fun e => e.1),
      ∃ c, mapGet s.clients x = some c ∧ c.response.failing = false := by
    intro x hx
    cases hgx : mapGet s.clients x with
    | none => exact absurd hx (mapGet_eq_none_iff.mp hgx)
    | some cx => exact ⟨cx, rfl, hgood _ (mapGet_some_mem hgx)⟩
  rw [broadcast_eq_loop hen]
  show (broadcastLoop cfg (finalizeEvent event now) now
      (s.clients.map (fun e => e.1)) s).2.1 = _
  rw [broadcastLoop_global hen htop' hsz _ s hpre, List.map_map]
  rfl

/-- C10, witness: a topicless broadcast on the filter scenario state —
client A's `priority == "high"` filter is ignored and A still receives
the raw event frame. -/
theorem global_broadcast_all_clients_witness :
    (broadcast cfgS withFilter evGlobal "t3").writes =
      [(idA, "data: all\n\n")] := by
  exact (global_broadcast_all_clients rfl (by decide) (by decide)
    (by unfold sizeOk; decide)).trans (by decide)

/-- C3 (corrected): when every topic-matching, filter-passing recipient's
(possibly transformed) payload exceeds the configured non-zero
`maxEventSize`, a topic broadcast performs zero transport writes — but it
does not fail the call with a `PayloadTooLarge` error before fan-out:
the per-recipient size error is caught like a transport failure, every
matching filter-passing recipient is evicted from the registry, clients
not subscribed to the topic are left untouched, and the call returns
normally. -/
theorem oversized_broadcast_zero_writes {cfg : SSEConfig} {s : SSEState}
    {event : SSEEvent} {now t : String}
    (hen : cfg.enabled = true)
    (htop : strTruthy event.topic = some t)
    (hid : IdKey s) (hnd : KeysNodup s) (hsafe : SubsSafe s)
    (hbig : ∀ e ∈ s.clients, t ∈ e.2.topics →
      filterRejects (subFor s e.2 (finalizeEvent event now))
        (finalizeEvent event now) = false →
      cfg.maxEventSize ≠ 0 ∧
        (xformEvent (subFor s e.2 (finalizeEvent event now))
          (finalizeEvent event now)).data.utf8ByteSize > cfg.maxEventSize) :
    (broadcast cfg s event now).writes = [] ∧
    (∀ k c, (k, c) ∈ s.clients → t ∈ c.topics →
      filterRejects (subFor s c (finalizeEvent event now))
        (finalizeEvent event now) = false →
      mapGet (broadcast cfg s event now).state.clients k = none) ∧
    (∀ k c, (k, c) ∈ s.clients → t ∉ c.topics →
      mapGet (broadcast cfg s event now).state.clients k = some c) := by
  have hfe_top : strTruthy (finalizeEvent event now).topic = some t := htop
  refine ⟨?_, ?_, ?_⟩
  · rw [broadcast_eq_loop hen]
    show (broadcastLoop cfg (finalizeEvent event now) now
        (s.clients.map (fun e => e.1)) s).2.1 = []
    refine broadcastLoop_oversize hfe_top ?_ _ s (fun e he => he) rfl hsafe
    intro e he hmt hfr
    exact sendEvent_error_of_oversize hen (hbig e he hmt hfr)
  · intro k c hmem hmt hfr
    exact broadcast_evicts_key hen htop hid hnd hsafe hmem hmt hfr
      (sendEvent_error_of_oversize hen (hbig (k, c) hmem hmt hfr))
  · intro k c hmem hmt
    exact broadcast_keeps_key hen htop hid hnd hmem hmt

/-- C3, witness: the oversized-broadcast theorem at the concrete
subscribed client: zero writes and the recipient evicted. -/
theorem oversized_broadcast_zero_writes_witness :
    (broadcast cfgS subbed evBig "t2").writes = [] ∧
    mapGet (broadcast cfgS subbed evBig "t2").state.clients idA = none := by
  have h := @oversized_broadcast_zero_writes cfgS subbed evBig "t2" "news"
    rfl (by decide)
    (by unfold IdKey; decide) (by unfold KeysNodup; decide)
    (by unfold SubsSafe; decide)
    (by decide)
  exact ⟨h.1, h.2.1 idA clientA (by decide) (by decide) (by decide)⟩

/-- C4 (corrected): when recipient A's transport write fails during a
topic broadcast (A subscribed, filter passing), A is evicted — absent
from the client map afterwards — and delivery to every other recipient
still proceeds independently: any other registered client with a healthy
transport and size-passing payload receives exactly one write when
subscribed with a passing filter, and none otherwise.  (What the claim
says about the return value is dropped: `broadcast` returns void and
reports no success/failure counts — see the counterexample.) -/
theorem broadcast_failure_isolation {cfg : SSEConfig} {s : SSEState}
    {event : SSEEvent} {now t a : String} {ca : SSEClient}
    (hen : cfg.enabled = true)
    (htop : strTruthy event.topic = some t)
    (hid : IdKey s) (hnd : KeysNodup s) (hsafe : SubsSafe s)
    (hmem : (a, ca) ∈ s.clients) (hta : t ∈ ca.topics)
    (hfail : ca.response.failing = true)
    (hpass : filterRejects (subFor s ca (finalizeEvent event now))
      (finalizeEvent event now) = false) :
    mapGet (broadcast cfg s event now).state.clients a = none ∧
    (∀ k c, (k, c) ∈ s.clients → c.response.failing = false →
      sizeOk cfg (xformEvent (subFor s c (finalizeEvent event now))
        (finalizeEvent event now)) →
      (broadcast cfg s event now).writes.filter (fun w => w.1 = k) =
        if t ∈ c.topics then
          (if filterRejects (subFor s c (finalizeEvent event now))
              (finalizeEvent event now) = true then []
           else [(k, buildMessage (xformEvent
              (subFor s c (finalizeEvent event now))
              (finalizeEvent event now)))])
        else []) := by
  constructor
  · exact broadcast_evicts_key hen htop hid hnd hsafe hmem hta hpass
      (sendEvent_error_of_failing hen hfail)
  · intro k c hkm hf hsz
    exact broadcast_writes_filter_key hen htop hid hnd hsafe hkm hf hsz

/-- C4, witness: the spec's broken-transport scenario — client A (broken)
and client B (healthy) both subscribed to `"room"`; the broadcast evicts
A and still delivers exactly one write to B. -/
theorem broadcast_failure_isolation_witness :
    mapGet (broadcast cfgS pairSub evRoom "t2").state.clients idA = none ∧
    (broadcast cfgS pairSub evRoom "t2").writes.filter
      (fun w => w.1 = idB) = [(idB, "data: hi\n\n")] := by
  have h := @broadcast_failure_isolation cfgS pairSub evRoom "t2" "room"
    idA clientAFail
    rfl (by decide)
    (by unfold IdKey; decide) (by unfold KeysNodup; decide)
    (by unfold SubsSafe; decide)
    (by decide) (by decide) (by decide) (by decide)
  refine ⟨h.1, ?_⟩
  exact (h.2 idB clientB (by decide) (by decide)
    (by unfold sizeOk; decide)).trans (by decide)

/-- C6: at every state reachable by any sequence of completed operations
(addClient with initial topics, subscribe, unsubscribe, removeClient,
filter/transform installation, and the eviction-performing broadcast,
sendToClient and heartbeat sweeps), a topic is in the active-topic index
returned by `getActiveTopics` exactly when at least one registered
client holds it in its topic set; in particular unsubscribing a client's
last topic or removing the topic's last subscriber deletes the topic
from the index. -/
theorem activeTopics_iff_subscriber (cfg : SSEConfig) (ops : List SSEOp)
    (t : String) :
    t ∈ getActiveTopics (runOps cfg ops) ↔
      ∃ c ∈ getClients (runOps cfg ops), t ∈ c.topics := by
  have htp := (runOps_inv cfg ops).2.2.2
  show t ∈ (runOps cfg ops).activeTopics ↔ _
  rw [htp t]
  constructor
  · rintro ⟨e, he, hte⟩
    exact ⟨e.2, List.mem_map.mpr ⟨e, he, rfl⟩, hte⟩
  · rintro ⟨c, hc, htc⟩
    obtain ⟨e, he, hec⟩ := List.mem_map.mp hc
    exact ⟨e, he, hec ▸ htc⟩

/-- C2 (corrected).  Bidirectional consistency of the subscription index
holds at every state reachable when subscriptions are managed purely
through `subscribe`/`unsubscribe`: `addClient` is given no initial topic
list and no client is removed or evicted (`coreOp`).  Then a subscription
record keyed `` `${clientId}:${topic}` `` exists if and only if the client
is registered and the topic is in its topic set: every stored record's key
has that shape and points at a registered client holding the topic, and
every client/topic edge has its record.  (The unrestricted claim fails:
`addClient` with initial topics creates client-to-topic edges but no
subscription records, see `subscription_iff_membership_cex`.) -/
theorem subscription_bidirectional_inv (cfg : SSEConfig) (ops : List SSEOp)
    (hops : ∀ op ∈ ops, coreOp op = true) :
    SubsInv (runOps cfg ops) :=
  runOps_core_subsinv cfg ops hops

theorem subscription_bidirectional_inv_witness :
    SubsInv (runOps Scenarios.cfgS Scenarios.c2ops) :=
  subscription_bidirectional_inv Scenarios.cfgS Scenarios.c2ops (by decide)

end ClaimTheorems
